import Mathlib

/-!
Verification development for the Dukascopy tick-data aggregation engine
(src/dukascopy/aggregator.js).

Modelling conventions:
- JavaScript numbers (prices, volumes) are modelled as exact rationals.
- Timestamps are integers (milliseconds since the epoch).  A JavaScript
  Date value is modelled as `Option Int`: `some ms` is a valid instant and
  `none` models an Invalid Date, i.e. a Date whose `getTime()` is NaN.
  Such a value arises in `getBarTime` exactly when the interval is zero
  (for a token such as zero-count timeframes), because
  `Math.floor(ms / 0) * 0` is NaN.
- `Array.prototype.sort` mutates the receiver in place.  The pure results
  of `aggregateTicksToBars` and `resampleBars` are modelled as functions
  into `Except`, and the post-call state of the caller-supplied array is
  modelled separately by `aggregateTicksToBarsPost` / `resampleBarsPost`.
- Statistics functions (`calculateStdDev`, `calculateSkewness`,
  `calculateKurtosis`, `calculateTickStatistics`) use the `JsNum` domain,
  an exact model of JavaScript floating point values: a finite rational,
  NaN, or a signed infinity.  `Math.sqrt` is partial in this model: it is
  defined when the exact result is rational (in particular on 0, on NaN,
  on infinities and on squares of rationals); `none` at the outer level
  means the evaluation left the exact-rational fragment, not an error of
  the modelled program.  None of the statistics functions in the source
  contain a throw statement, so they have no error channel here either.
-/

/-- A tick record: `{timestamp, bid, ask, bidVolume?, askVolume?}`.
`none` in a volume field models an absent property. -/
structure Tick where
  timestamp : Int
  bid : ℚ
  ask : ℚ
  bidVolume : Option ℚ := none
  askVolume : Option ℚ := none
deriving DecidableEq, Repr

/-- A bar produced by `aggregateTicksToBars` (source lines 41-58): the
field `open_` models the source field `open`, which is a reserved word in
Lean. -/
structure Bar where
  timestamp : Option Int
  open_ : ℚ
  high : ℚ
  low : ℚ
  close : ℚ
  volume : ℚ
  tickCount : ℕ
  spread : ℚ
deriving DecidableEq, Repr

/-- A bar produced by `resampleBars` (source lines 222-230): unlike the
bars built from ticks it has no `spread` field. -/
structure RBar where
  timestamp : Option Int
  open_ : ℚ
  high : ℚ
  low : ℚ
  close : ℚ
  volume : ℚ
  tickCount : ℕ
deriving DecidableEq, Repr

/-- Longest leading run of decimal digits of a character list, with the
rest: executable model of the regex fragment `^(\d+)` . -/
def splitDigits : List Char → List Char × List Char
  | [] => ([], [])
  | c :: cs =>
    if c.isDigit then
      let p := splitDigits cs
      (c :: p.1, p.2)
    else ([], c :: cs)

/-- Decimal value of a digit string: model of `parseInt` on the capture
group `(\d+)`. -/
def digitsToNat (ds : List Char) : ℕ :=
  ds.foldl (fun a c => 10 * a + (c.toNat - Char.toNat (Char.ofNat 48))) 0

/-- The `switch (unit)` of source lines 88-93, as minutes per unit. -/
def unitMinutes : Char → Option ℕ
  | Char.ofNat 109 => some 1
  | Char.ofNat 104 => some 60
  | Char.ofNat 100 => some (60 * 24)
  | _ => none

/-- `parseTimeframe` (source lines 79-94): matches `^(\d+)([mhd])$` and
returns the interval in minutes, otherwise throws
`Invalid timeframe: ...`. -/
def parseTimeframe (timeframe : String) : Except String ℕ :=
  match (splitDigits timeframe.data).2, (splitDigits timeframe.data).1 with
  | [u], d :: ds =>
    match unitMinutes u with
    | some k => Except.ok (digitsToNat (d :: ds) * k)
    | none => Except.error ("Invalid timeframe: " ++ timeframe)
  | _, _ => Except.error ("Invalid timeframe: " ++ timeframe)

/-- Interval length in milliseconds (source line 104). -/
def intervalMs (m : ℕ) : Int := (m : Int) * 60000

/-- The epoch-aligned bucket start for a positive interval, as a plain
integer: `floor(ms / intervalMs) * intervalMs`. -/
def bucketKey (m : ℕ) (ms : Int) : Int :=
  (Int.fdiv ms (intervalMs m)) * intervalMs m

/-- `getBarTime` (source lines 102-107).  `Math.floor` is true floor
division.  When the interval is zero, `Math.floor(ms / 0) * 0` is NaN and
`new Date(NaN)` is an Invalid Date, modelled as `none`. -/
def getBarTime (ms : Int) (m : ℕ) : Option Int :=
  if m = 0 then none else some (bucketKey m ms)

/-- `getBarTime` applied to a Date value that may itself be invalid
(`new Date(bar.timestamp)` in `resampleBars`): NaN input gives NaN. -/
def getBarTimeOpt (ts : Option Int) (m : ℕ) : Option Int :=
  ts.bind fun ms => getBarTime ms m

/-- The comparison `currentBar.timestamp.getTime() !== barTime.getTime()`
(source lines 35 and 216).  `NaN !== x` is true for every `x`, including
`x = NaN`. -/
def dateNe (a b : Option Int) : Bool :=
  match a, b with
  | some x, some y => x != y
  | _, _ => true

/-- Mid price `(tick.bid + tick.ask) / 2` (source line 33). -/
def midPrice (t : Tick) : ℚ := (t.bid + t.ask) / 2

/-- JavaScript truthiness of a possibly absent numeric property: an
absent field and the number 0 are falsy. -/
def truthy : Option ℚ → Bool
  | none => false
  | some q => q != 0

/-- Contribution of one tick to `currentBar.volume` (source lines 60-63):
`(bidVolume + askVolume) / 2` when `tick.bidVolume && tick.askVolume` is
truthy, otherwise nothing is added. -/
def tickVolumeContrib (t : Tick) : ℚ :=
  if truthy t.bidVolume && truthy t.askVolume then
    match t.bidVolume, t.askVolume with
    | some bv, some av => (bv + av) / 2
    | _, _ => 0
  else 0

/-- The volume update applied to the current bar after the open/update
branch (source lines 60-63). -/
def addVolume (b : Bar) (t : Tick) : Bar :=
  { b with volume := b.volume + tickVolumeContrib t }

/-- A fresh bar seeded from a tick (source lines 41-50). -/
def newBarFromTick (barTime : Option Int) (t : Tick) : Bar :=
  { timestamp := barTime
    open_ := midPrice t
    high := midPrice t
    low := midPrice t
    close := midPrice t
    volume := 0
    tickCount := 1
    spread := t.ask - t.bid }

/-- In-bucket update of the current bar by a tick (source lines 52-57).
The tick count is incremented first; the spread is then updated with the
incremental-mean recurrence using the post-increment count `n`. -/
def updateBarWithTick (b : Bar) (t : Tick) : Bar :=
  let n : ℕ := b.tickCount + 1
  { b with
    high := max b.high (midPrice t)
    low := min b.low (midPrice t)
    close := midPrice t
    tickCount := n
    spread := (b.spread * ((n : ℚ) - 1) + (t.ask - t.bid)) / (n : ℚ) }

/-- One iteration of the tick loop of `aggregateTicksToBars` (source
lines 28-64).  The state is the list of closed bars plus the current open
bar, if any. -/
def tickStep (m : ℕ) (st : List Bar × Option Bar) (t : Tick) :
    List Bar × Option Bar :=
  let barTime := getBarTime t.timestamp m
  match st.2 with
  | none => (st.1, some (addVolume (newBarFromTick barTime t) t))
  | some cb =>
    if dateNe cb.timestamp barTime then
      (st.1 ++ [cb], some (addVolume (newBarFromTick barTime t) t))
    else
      (st.1, some (addVolume (updateBarWithTick cb t) t))

/-- Appending the still-open bar after the loop (source lines 66-69). -/
def closeState (st : List Bar × Option Bar) : List Bar :=
  st.1 ++ st.2.toList

/-- Ascending-timestamp comparison used to model the sort comparator
`(a, b) => new Date(a.timestamp) - new Date(b.timestamp)` on ticks. -/
def tickLe (a b : Tick) : Prop := a.timestamp ≤ b.timestamp

instance : DecidableRel tickLe := fun a b =>
  inferInstanceAs (Decidable (a.timestamp ≤ b.timestamp))

instance : IsTotal Tick tickLe := ⟨fun a b => Int.le_total a.timestamp b.timestamp⟩

instance : IsTrans Tick tickLe := ⟨fun _ _ _ h h' => le_trans h h'⟩

/-- The sorted copy of the tick array.  Deterministic stand-in for the
engine sort; any ascending reordering satisfies the contract, since tie
order is unspecified. -/
def sortTicks (l : List Tick) : List Tick := l.insertionSort tickLe

/-- Ordering of possibly invalid Date values used for sorting bars.  An
Invalid Date has no defined order in JavaScript; the model places it
first, a choice that is irrelevant for bars with valid timestamps. -/
def optTsLeB : Option Int → Option Int → Bool
  | none, _ => true
  | some _, none => false
  | some x, some y => x ≤ y

/-- Ascending-timestamp comparison on bars. -/
def barLe (a b : Bar) : Prop := optTsLeB a.timestamp b.timestamp = true

instance : DecidableRel barLe := fun a b =>
  inferInstanceAs (Decidable (optTsLeB a.timestamp b.timestamp = true))

instance : IsTotal Bar barLe := by
  constructor
  intro a b
  show optTsLeB a.timestamp b.timestamp = true ∨ optTsLeB b.timestamp a.timestamp = true
  rcases a.timestamp with _ | x <;> rcases b.timestamp with _ | y <;>
    simp [optTsLeB] <;> try omega

instance : IsTrans Bar barLe := by
  constructor
  intro a b c
  show optTsLeB a.timestamp b.timestamp = true →
    optTsLeB b.timestamp c.timestamp = true →
    optTsLeB a.timestamp c.timestamp = true
  rcases a.timestamp with _ | x <;> rcases b.timestamp with _ | y <;>
    rcases c.timestamp with _ | z <;> simp [optTsLeB] <;> try omega

/-- The sorted copy of a bar array (`resampleBars`, source line 207). -/
def sortBars (l : List Bar) : List Bar := l.insertionSort barLe

/-- `aggregateTicksToBars` (source lines 16-72), result value.  The empty
check precedes timeframe parsing; parsing precedes the sort. -/
def aggregateTicksToBars (ticks : List Tick) (timeframe : String) :
    Except String (List Bar) :=
  if ticks.isEmpty then Except.ok [] else
    match parseTimeframe timeframe with
    | Except.error e => Except.error e
    | Except.ok m =>
      Except.ok (closeState ((sortTicks ticks).foldl (tickStep m) ([], none)))

/-- State of the caller-supplied array after `aggregateTicksToBars`
returns or throws: `ticks.sort(...)` (source line 23) mutates the array
in place.  On empty input the function returns before sorting; when
`parseTimeframe` (line 20) throws, the exception propagates before the
sort runs. -/
def aggregateTicksToBarsPost (ticks : List Tick) (timeframe : String) :
    List Tick :=
  if ticks.isEmpty then ticks else
    match parseTimeframe timeframe with
    | Except.error _ => ticks
    | Except.ok _ => sortTicks ticks

/-- `x || d` on a number that is always present: 0 is falsy. -/
def jsOrQ (v d : ℚ) : ℚ := if v = 0 then d else v

/-- `x || d` on a count: 0 is falsy. -/
def jsOrNat (v d : ℕ) : ℕ := if v = 0 then d else v

/-- A fresh resampled bar seeded from a source bar (source lines
222-230). -/
def newRBarFromBar (barTime : Option Int) (b : Bar) : RBar :=
  { timestamp := barTime
    open_ := b.open_
    high := b.high
    low := b.low
    close := b.close
    volume := jsOrQ b.volume 0
    tickCount := jsOrNat b.tickCount 1 }

/-- In-bucket update of the current resampled bar by a source bar
(source lines 232-238). -/
def updateRBarWithBar (cb : RBar) (b : Bar) : RBar :=
  { cb with
    high := max cb.high b.high
    low := min cb.low b.low
    close := b.close
    volume := cb.volume + jsOrQ b.volume 0
    tickCount := cb.tickCount + jsOrNat b.tickCount 1 }

/-- One iteration of the bar loop of `resampleBars` (source lines
213-239). -/
def barStep (m : ℕ) (st : List RBar × Option RBar) (b : Bar) :
    List RBar × Option RBar :=
  let barTime := getBarTimeOpt b.timestamp m
  match st.2 with
  | none => (st.1, some (newRBarFromBar barTime b))
  | some cb =>
    if dateNe cb.timestamp barTime then
      (st.1 ++ [cb], some (newRBarFromBar barTime b))
    else
      (st.1, some (updateRBarWithBar cb b))

/-- Appending the still-open resampled bar after the loop (source lines
241-244). -/
def closeStateR (st : List RBar × Option RBar) : List RBar :=
  st.1 ++ st.2.toList

/-- `resampleBars` (source lines 203-247), result value.  The empty check
comes first; the sort precedes timeframe parsing. -/
def resampleBars (bars : List Bar) (targetTimeframe : String) :
    Except String (List RBar) :=
  if bars.isEmpty then Except.ok [] else
    match parseTimeframe targetTimeframe with
    | Except.error e => Except.error e
    | Except.ok m =>
      Except.ok (closeStateR ((sortBars bars).foldl (barStep m) ([], none)))

/-- State of the caller-supplied array after `resampleBars` returns or
throws: `bars.sort(...)` (source line 207) runs before `parseTimeframe`
(line 209), so the array is sorted in place even when the timeframe is
invalid; only the empty early return leaves it untouched. -/
def resampleBarsPost (bars : List Bar) (targetTimeframe : String) :
    List Bar :=
  if bars.isEmpty then bars else sortBars bars

/-- The folded loop state of `aggregateTicksToBars` over a record
sequence. -/
def aggState (m : ℕ) (l : List Tick) : List Bar × Option Bar :=
  l.foldl (tickStep m) ([], none)

/-- Projection of a tick-built bar onto the resampled-bar record shape:
every field except `spread`, which `resampleBars` does not track. -/
def projBar (b : Bar) : RBar :=
  { timestamp := b.timestamp
    open_ := b.open_
    high := b.high
    low := b.low
    close := b.close
    volume := b.volume
    tickCount := b.tickCount }

/-- Strict ascending order on bucket-start Date values: NaN compares
false against everything, as in JavaScript. -/
def optLt : Option Int → Option Int → Prop
  | some x, some y => x < y
  | _, _ => False

instance : ∀ a b, Decidable (optLt a b)
  | some x, some y => inferInstanceAs (Decidable (x < y))
  | some _, none => inferInstanceAs (Decidable False)
  | none, _ => inferInstanceAs (Decidable False)

instance : IsTrans (Option Int) optLt := by
  constructor
  intro a b c hab hbc
  rcases a with _ | x <;> rcases b with _ | y <;> rcases c with _ | z <;>
    simp_all [optLt]
  omega

/-- The comparison `bucketStart(t, tf) <= t` as evaluated by JavaScript
on Date values: false whenever either side is NaN. -/
def jsLe (a b : Option Int) : Bool :=
  match a, b with
  | some x, some y => x ≤ y
  | _, _ => false

/-- A JavaScript number: a finite value (exact rational in this model),
NaN, or a signed infinity. -/
inductive JsNum where
  | num (q : ℚ)
  | nan
  | inf
  | ninf
deriving DecidableEq, Repr

/-- IEEE negation. -/
def jneg : JsNum → JsNum
  | JsNum.num a => JsNum.num (-a)
  | JsNum.nan => JsNum.nan
  | JsNum.inf => JsNum.ninf
  | JsNum.ninf => JsNum.inf

/-- IEEE addition: NaN absorbs; infinities of opposite sign give NaN. -/
def jadd : JsNum → JsNum → JsNum
  | JsNum.nan, _ => JsNum.nan
  | _, JsNum.nan => JsNum.nan
  | JsNum.num a, JsNum.num b => JsNum.num (a + b)
  | JsNum.inf, JsNum.inf => JsNum.inf
  | JsNum.inf, JsNum.ninf => JsNum.nan
  | JsNum.ninf, JsNum.inf => JsNum.nan
  | JsNum.ninf, JsNum.ninf => JsNum.ninf
  | JsNum.inf, JsNum.num _ => JsNum.inf
  | JsNum.num _, JsNum.inf => JsNum.inf
  | JsNum.ninf, JsNum.num _ => JsNum.ninf
  | JsNum.num _, JsNum.ninf => JsNum.ninf

/-- IEEE subtraction `a + (-b)`. -/
def jsub (a b : JsNum) : JsNum := jadd a (jneg b)

/-- IEEE multiplication: NaN absorbs; infinity times zero is NaN. -/
def jmul : JsNum → JsNum → JsNum
  | JsNum.nan, _ => JsNum.nan
  | _, JsNum.nan => JsNum.nan
  | JsNum.num a, JsNum.num b => JsNum.num (a * b)
  | JsNum.inf, JsNum.inf => JsNum.inf
  | JsNum.inf, JsNum.ninf => JsNum.ninf
  | JsNum.ninf, JsNum.inf => JsNum.ninf
  | JsNum.ninf, JsNum.ninf => JsNum.inf
  | JsNum.inf, JsNum.num b =>
    if b = 0 then JsNum.nan else if 0 < b then JsNum.inf else JsNum.ninf
  | JsNum.num a, JsNum.inf =>
    if a = 0 then JsNum.nan else if 0 < a then JsNum.inf else JsNum.ninf
  | JsNum.ninf, JsNum.num b =>
    if b = 0 then JsNum.nan else if 0 < b then JsNum.ninf else JsNum.inf
  | JsNum.num a, JsNum.ninf =>
    if a = 0 then JsNum.nan else if 0 < a then JsNum.ninf else JsNum.inf

/-- IEEE division.  Division of a nonzero finite value by (unsigned) zero
gives the infinity carrying the sign of the numerator, `0 / 0` gives NaN,
and a finite value divided by an infinity gives zero. -/
def jdiv : JsNum → JsNum → JsNum
  | JsNum.nan, _ => JsNum.nan
  | _, JsNum.nan => JsNum.nan
  | JsNum.num a, JsNum.num b =>
    if b = 0 then
      if a = 0 then JsNum.nan else if 0 < a then JsNum.inf else JsNum.ninf
    else JsNum.num (a / b)
  | JsNum.num _, JsNum.inf => JsNum.num 0
  | JsNum.num _, JsNum.ninf => JsNum.num 0
  | JsNum.inf, JsNum.num b => if b < 0 then JsNum.ninf else JsNum.inf
  | JsNum.ninf, JsNum.num b => if b < 0 then JsNum.inf else JsNum.ninf
  | JsNum.inf, JsNum.inf => JsNum.nan
  | JsNum.inf, JsNum.ninf => JsNum.nan
  | JsNum.ninf, JsNum.inf => JsNum.nan
  | JsNum.ninf, JsNum.ninf => JsNum.nan

/-- `Math.pow` with a positive integer exponent (the source uses 2, 3
and 4). -/
def jpow (x : JsNum) (k : ℕ) : JsNum :=
  match x with
  | JsNum.num a => JsNum.num (a ^ k)
  | JsNum.nan => JsNum.nan
  | JsNum.inf => JsNum.inf
  | JsNum.ninf => if k % 2 = 0 then JsNum.inf else JsNum.ninf

/-- `values.reduce((a, b) => a + b, 0)`. -/
def jsum (l : List JsNum) : JsNum := l.foldl jadd (JsNum.num 0)

/-- `Math.min` of two values: NaN absorbs. -/
def jmin : JsNum → JsNum → JsNum
  | JsNum.nan, _ => JsNum.nan
  | _, JsNum.nan => JsNum.nan
  | JsNum.num a, JsNum.num b => JsNum.num (min a b)
  | JsNum.inf, x => x
  | x, JsNum.inf => x
  | JsNum.ninf, _ => JsNum.ninf
  | JsNum.num _, JsNum.ninf => JsNum.ninf

/-- `Math.max` of two values: NaN absorbs. -/
def jmax : JsNum → JsNum → JsNum
  | JsNum.nan, _ => JsNum.nan
  | _, JsNum.nan => JsNum.nan
  | JsNum.num a, JsNum.num b => JsNum.num (max a b)
  | JsNum.ninf, x => x
  | x, JsNum.ninf => x
  | JsNum.inf, _ => JsNum.inf
  | JsNum.num _, JsNum.inf => JsNum.inf

/-- `Math.min(...values)`: the fold starts from `Math.min()`, which is
positive infinity. -/
def jminList (l : List JsNum) : JsNum := l.foldl jmin JsNum.inf

/-- `Math.max(...values)`: the fold starts from negative infinity. -/
def jmaxList (l : List JsNum) : JsNum := l.foldl jmax JsNum.ninf

/-- Exact rational square root, defined when the radicand is a square of
a rational; callers guard the sign. -/
def ratSqrt (q : ℚ) : Option ℚ :=
  let sn := Nat.sqrt q.num.toNat
  let sd := Nat.sqrt q.den
  if sn * sn = q.num.toNat ∧ sd * sd = q.den then
    some ((sn : ℚ) / (sd : ℚ))
  else none

/-- `Math.sqrt` on the JsNum domain.  `none` means the true result is a
finite irrational, which the exact-rational model cannot represent; this
is model incompleteness, not program behaviour. -/
def jsqrt : JsNum → Option JsNum
  | JsNum.nan => some JsNum.nan
  | JsNum.inf => some JsNum.inf
  | JsNum.ninf => some JsNum.nan
  | JsNum.num q =>
    if q < 0 then some JsNum.nan else (ratSqrt q).map JsNum.num

/-- `calculateStdDev` (source lines 158-163): population standard
deviation, dividing the squared-deviation sum by `n`.  There is no length
guard: the empty list gives `0 / 0 = NaN` for the mean and the variance
and hence NaN. -/
def calculateStdDev (values : List JsNum) : Option JsNum :=
  let n := JsNum.num ((values.length : ℚ))
  let mean := jdiv (jsum values) n
  let squaredDiffs := values.map fun x => jpow (jsub x mean) 2
  let variance := jdiv (jsum squaredDiffs) n
  jsqrt variance

/-- `calculateSkewness` (source lines 170-177):
`(n / ((n-1)(n-2))) * sum(((x-mean)/std)^3)`.  There is no minimum
sample-size guard and no throw statement: for `n < 3` the factor divides
by zero and the result is a silent non-finite value. -/
def calculateSkewness (values : List JsNum) : Option JsNum :=
  let n := JsNum.num ((values.length : ℚ))
  let mean := jdiv (jsum values) n
  match calculateStdDev values with
  | none => none
  | some std =>
    let cubedDiffs := values.map fun x => jpow (jdiv (jsub x mean) std) 3
    some (jmul
      (jdiv n (jmul (jsub n (JsNum.num 1)) (jsub n (JsNum.num 2))))
      (jsum cubedDiffs))

/-- `calculateKurtosis` (source lines 184-195): excess kurtosis,
`(n(n+1)/((n-1)(n-2)(n-3))) * sum(((x-mean)/std)^4) - 3(n-1)^2/((n-2)(n-3))`
followed by the final `- 3`.  No sample-size guard, no throw. -/
def calculateKurtosis (values : List JsNum) : Option JsNum :=
  let n := JsNum.num ((values.length : ℚ))
  let mean := jdiv (jsum values) n
  match calculateStdDev values with
  | none => none
  | some std =>
    let fourthDiffs := values.map fun x => jpow (jdiv (jsub x mean) std) 4
    let raw := jsub
      (jmul
        (jdiv (jmul n (jadd n (JsNum.num 1)))
          (jmul (jmul (jsub n (JsNum.num 1)) (jsub n (JsNum.num 2)))
            (jsub n (JsNum.num 3))))
        (jsum fourthDiffs))
      (jdiv (jmul (JsNum.num 3) (jpow (jsub n (JsNum.num 1)) 2))
        (jmul (jsub n (JsNum.num 2)) (jsub n (JsNum.num 3))))
    some (jsub raw (JsNum.num 3))

/-- The `{min, max, mean, std}` block for spreads and mid prices. -/
structure DistStats where
  min : JsNum
  max : JsNum
  mean : JsNum
  std : JsNum
deriving DecidableEq, Repr

/-- The `returns` block of the statistics report. -/
structure ReturnsStats where
  mean : JsNum
  std : JsNum
  skew : JsNum
  kurtosis : JsNum
deriving DecidableEq, Repr

/-- The report of `calculateTickStatistics`; `timeRange.from` and
`timeRange.to` are flattened into two integer fields. -/
structure StatsReport where
  tickCount : ℕ
  timeFrom : Int
  timeTo : Int
  spread : DistStats
  price : DistStats
  returns : ReturnsStats
deriving DecidableEq, Repr

/-- The returns loop of source lines 121-124:
`(mid[i] - mid[i-1]) / mid[i-1]`. -/
def returnsOf : List JsNum → List JsNum
  | x :: y :: rest => jdiv (jsub y x) x :: returnsOf (y :: rest)
  | _ => []

/-- `calculateTickStatistics` (source lines 114-151).  The outer `none`
means the evaluation left the exact-rational model (an irrational square
root); the inner `none` is the JavaScript `null` returned for empty
input.  The input is used in array order: no sorting happens here, and
`timeRange` takes the first and last element by position. -/
def calculateTickStatistics (ticks : List Tick) :
    Option (Option StatsReport) :=
  if ticks.isEmpty then some none else
    let spreads := ticks.map fun t => JsNum.num (t.ask - t.bid)
    let midPrices := ticks.map fun t => JsNum.num ((t.bid + t.ask) / 2)
    let returns := returnsOf midPrices
    match ticks.head?, ticks.getLast? with
    | some t0, some tl =>
      match calculateStdDev spreads, calculateStdDev midPrices,
        calculateStdDev returns, calculateSkewness returns,
        calculateKurtosis returns with
      | some sStd, some pStd, some rStd, some rSkew, some rKurt =>
        some (some
          { tickCount := ticks.length
            timeFrom := t0.timestamp
            timeTo := tl.timestamp
            spread :=
              { min := jminList spreads
                max := jmaxList spreads
                mean := jdiv (jsum spreads) (JsNum.num ((spreads.length : ℚ)))
                std := sStd }
            price :=
              { min := jminList midPrices
                max := jmaxList midPrices
                mean := jdiv (jsum midPrices) (JsNum.num ((midPrices.length : ℚ)))
                std := pStd }
            returns :=
              { mean := jdiv (jsum returns) (JsNum.num ((returns.length : ℚ)))
                std := rStd
                skew := rSkew
                kurtosis := rKurt } })
      | _, _, _, _, _ => none
    | _, _ => none

/-- The OHLC containment invariant of the Bar data model. -/
def barInv (b : Bar) : Prop :=
  b.low ≤ min b.open_ b.close ∧ max b.open_ b.close ≤ b.high

/-- The OHLC containment invariant for resampled bars. -/
def rbarInv (r : RBar) : Prop :=
  r.low ≤ min r.open_ r.close ∧ max r.open_ r.close ≤ r.high

/-- The timeframe grammar `^(\d+)([mhd])$` as a declarative predicate:
the token is a nonempty digit string followed by a single unit letter. -/
def matchesTimeframeGrammar (s : String) : Prop :=
  ∃ ds u, s.data = ds ++ [u] ∧ ds ≠ [] ∧ (∀ c ∈ ds, c.isDigit = true) ∧
    (u = Char.ofNat 109 ∨ u = Char.ofNat 104 ∨ u = Char.ofNat 100)

/-- The interval length is nonnegative for every minute count. -/
theorem intervalMs_nonneg (m : ℕ) : 0 ≤ intervalMs m := by
  unfold intervalMs
  positivity

/-- The interval length is positive for a positive minute count. -/
theorem intervalMs_pos {m : ℕ} (hm : 0 < m) : 0 < intervalMs m := by
  unfold intervalMs
  have : (0 : Int) < (m : Int) := by exact_mod_cast hm
  nlinarith

/-- `Math.floor` on a nonnegative divisor agrees with Euclidean division,
so the bucket start can be rewritten through `/`. -/
theorem bucketKey_eq_ediv (m : ℕ) (z : Int) :
    bucketKey m z = z / intervalMs m * intervalMs m := by
  unfold bucketKey
  rw [Int.fdiv_eq_ediv _ (intervalMs_nonneg m)]

/-- The bucket start never exceeds the instant it buckets. -/
theorem bucketKey_le {m : ℕ} (hm : 0 < m) (z : Int) : bucketKey m z ≤ z := by
  rw [bucketKey_eq_ediv]
  exact Int.ediv_mul_le z (ne_of_gt (intervalMs_pos hm))

/-- Bucketing an already bucket-aligned instant is the identity. -/
theorem bucketKey_idem {m : ℕ} (hm : 0 < m) (z : Int) :
    bucketKey m (bucketKey m z) = bucketKey m z := by
  rw [bucketKey_eq_ediv, bucketKey_eq_ediv,
    Int.mul_ediv_cancel _ (ne_of_gt (intervalMs_pos hm))]

/-- Bucket starts are monotone in the instant. -/
theorem bucketKey_mono {m : ℕ} (hm : 0 < m) {a b : Int} (h : a ≤ b) :
    bucketKey m a ≤ bucketKey m b := by
  rw [bucketKey_eq_ediv, bucketKey_eq_ediv]
  exact mul_le_mul_of_nonneg_right (Int.ediv_le_ediv (intervalMs_pos hm) h)
    (intervalMs_nonneg m)

/-- Flooring to a multiple of `a` and then dividing by the larger period
`a * k` is the same as dividing directly. -/
theorem ediv_mul_ediv_mul (z : Int) {a k : Int} (ha : 0 < a) (hk : 0 < k) :
    z / a * a / (a * k) = z / (a * k) := by
  have hak : 0 < a * k := mul_pos ha hk
  apply le_antisymm
  · exact Int.ediv_le_ediv hak (Int.ediv_mul_le z (ne_of_gt ha))
  · rw [Int.le_ediv_iff_mul_le hak]
    have h1 : z / (a * k) * k ≤ z / a := by
      rw [Int.le_ediv_iff_mul_le ha]
      calc z / (a * k) * k * a = z / (a * k) * (a * k) := by ring
        _ ≤ z := Int.ediv_mul_le z (ne_of_gt hak)
    calc z / (a * k) * (a * k) = z / (a * k) * k * a := by ring
      _ ≤ z / a * a := mul_le_mul_of_nonneg_right h1 ha.le

/-- Coarsening a bucket start to a timeframe whose minute count is a
multiple gives the same result as coarsening the raw instant: the 5m and
15m grids are nested. -/
theorem bucketKey_compose {m M : ℕ} (hm : 0 < m) (hM : 0 < M) (hd : m ∣ M)
    (z : Int) : bucketKey M (bucketKey m z) = bucketKey M z := by
  obtain ⟨k, hk⟩ := hd
  have hk0 : 0 < k := by
    rcases Nat.eq_zero_or_pos k with h | h
    · subst h; omega
    · exact h
  have hMms : intervalMs M = intervalMs m * (k : Int) := by
    unfold intervalMs
    push_cast [hk]
    ring
  rw [bucketKey_eq_ediv M, bucketKey_eq_ediv M z, bucketKey_eq_ediv m z, hMms]
  rw [ediv_mul_ediv_mul z (intervalMs_pos hm) (by exact_mod_cast hk0)]

/-- For a positive interval `getBarTime` is a valid Date carrying the
bucket start. -/
theorem getBarTime_pos {m : ℕ} (hm : 0 < m) (z : Int) :
    getBarTime z m = some (bucketKey m z) := by
  unfold getBarTime
  rw [if_neg (Nat.pos_iff_ne_zero.mp hm)]

/-- The sorted copy is a permutation of the original tick array. -/
theorem sortTicks_perm (l : List Tick) : (sortTicks l).Perm l :=
  List.perm_insertionSort tickLe l

/-- The sorted copy is ascending by timestamp. -/
theorem sortTicks_sorted (l : List Tick) : List.Sorted tickLe (sortTicks l) :=
  List.sorted_insertionSort tickLe l

/-- The sorted copy is a permutation of the original bar array. -/
theorem sortBars_perm (l : List Bar) : (sortBars l).Perm l :=
  List.perm_insertionSort barLe l

/-- The sorted copy of a bar array is ascending by timestamp. -/
theorem sortBars_sorted (l : List Bar) : List.Sorted barLe (sortBars l) :=
  List.sorted_insertionSort barLe l

/-- Sorting an already ascending bar array changes nothing. -/
theorem sortBars_eq_of_sorted {l : List Bar} (h : List.Sorted barLe l) :
    sortBars l = l :=
  List.Sorted.insertionSort_eq h

/-- The loop state over a snoc decomposes into one more step. -/
theorem aggState_append (m : ℕ) (l : List Tick) (t : Tick) :
    aggState m (l ++ [t]) = tickStep m (aggState m l) t := by
  unfold aggState
  rw [List.foldl_append]
  rfl

/-- Loop invariant of `aggregateTicksToBars` over a sorted tick sequence
with a positive interval: the fold ends with an open bar for the bucket
of the last tick; the closed bars followed by the open bar have strictly
ascending, valid bucket-start timestamps; the bucket starts that occur
are exactly the buckets of the input ticks; and every bar counts at least
one tick. -/
theorem aggState_spec (m : ℕ) (hm : 0 < m) :
    ∀ l : List Tick, List.Sorted tickLe l → ∀ tl, l.getLast? = some tl →
    ∃ bs cb, aggState m l = (bs, some cb) ∧
      cb.timestamp = some (bucketKey m tl.timestamp) ∧
      List.Chain' optLt ((bs ++ [cb]).map Bar.timestamp) ∧
      (∀ z : Int, some z ∈ (bs ++ [cb]).map Bar.timestamp ↔
        ∃ t ∈ l, bucketKey m t.timestamp = z) ∧
      (∀ b ∈ bs ++ [cb], 1 ≤ b.tickCount) := by
  intro l
  induction l using List.reverseRecOn with
  | nil =>
    intro _ tl htl
    simp at htl
  | append_singleton l t ih =>
    intro hs tl htl
    rw [List.getLast?_concat] at htl
    injection htl with htl
    subst htl
    have hpair := List.pairwise_append.mp hs
    have hsl : List.Sorted tickLe l := hpair.1
    have hle : ∀ u ∈ l, tickLe u t := fun u hu => hpair.2.2 u hu t (by simp)
    rw [aggState_append]
    rcases hl : l.getLast? with _ | tl'
    · have hlnil : l = [] := List.getLast?_eq_none_iff.mp hl
      subst hlnil
      refine ⟨[], addVolume (newBarFromTick (getBarTime t.timestamp m) t) t,
        ?_, ?_, ?_, ?_, ?_⟩
      · simp [aggState, tickStep]
      · simp [addVolume, newBarFromTick, getBarTime_pos hm]
      · simp
      · intro z
        simp [addVolume, newBarFromTick, getBarTime_pos hm, eq_comm]
      · intro b hb
        simp at hb
        subst hb
        simp [addVolume, newBarFromTick]
    · obtain ⟨bs, cb, heq, hts, hchain, hmem, htc⟩ := ih hsl tl' hl
      have htlmem : tl' ∈ l := List.mem_of_mem_getLast? (by simp [hl])
      have hletl : tl'.timestamp ≤ t.timestamp := hle tl' htlmem
      rw [heq]
      by_cases hkey : bucketKey m t.timestamp = bucketKey m tl'.timestamp
      · have hne : dateNe cb.timestamp (getBarTime t.timestamp m) = false := by
          rw [hts, getBarTime_pos hm]
          simp [dateNe]
          exact hkey.symm
        have htseq : (addVolume (updateBarWithTick cb t) t).timestamp =
            cb.timestamp := rfl
        refine ⟨bs, addVolume (updateBarWithTick cb t) t, ?_, ?_, ?_, ?_, ?_⟩
        · simp [tickStep, hne]
        · rw [htseq, hts, hkey]
        · simp only [List.map_append, List.map_cons, List.map_nil, htseq] at hchain ⊢
          exact hchain
        · intro z
          constructor
          · intro hz
            have hz' : some z ∈ (bs ++ [cb]).map Bar.timestamp := by
              simpa [List.map_append, htseq] using hz
            obtain ⟨u, hu, hku⟩ := (hmem z).mp hz'
            exact ⟨u, List.mem_append.mpr (Or.inl hu), hku⟩
          · rintro ⟨u, hu, hku⟩
            rcases List.mem_append.mp hu with hu | hu
            · have := (hmem z).mpr ⟨u, hu, hku⟩
              simpa [List.map_append, htseq] using this
            · simp at hu
              subst hu
              have hz : z = bucketKey m tl'.timestamp := by
                rw [← hku, hkey]
              subst hz
              have := (hmem _).mpr ⟨tl', htlmem, rfl⟩
              simpa [List.map_append, htseq] using this
        · intro b hb
          rcases List.mem_append.mp hb with hb | hb
          · exact htc b (List.mem_append.mpr (Or.inl hb))
          · simp at hb
            subst hb
            show 1 ≤ (addVolume (updateBarWithTick cb t) t).tickCount
            have : (addVolume (updateBarWithTick cb t) t).tickCount =
                cb.tickCount + 1 := rfl
            omega
      · have hlt : bucketKey m tl'.timestamp < bucketKey m t.timestamp :=
          lt_of_le_of_ne (bucketKey_mono hm hletl) fun h => hkey h.symm
        have hne : dateNe cb.timestamp (getBarTime t.timestamp m) = true := by
          rw [hts, getBarTime_pos hm]
          simp [dateNe]
          omega
        have hnts : (addVolume (newBarFromTick (getBarTime t.timestamp m) t)
            t).timestamp = some (bucketKey m t.timestamp) := by
          simp [addVolume, newBarFromTick, getBarTime_pos hm]
        refine ⟨bs ++ [cb],
          addVolume (newBarFromTick (getBarTime t.timestamp m) t) t,
          ?_, ?_, ?_, ?_, ?_⟩
        · simp [tickStep, hne]
        · exact hnts
        · rw [List.map_append]
          rw [List.chain'_append]
          refine ⟨hchain, List.chain'_singleton _, ?_⟩
          intro x hx y hy
          simp only [List.map_cons, List.map_nil, List.head?_cons,
            Option.mem_def, Option.some.injEq] at hy
          have hx' : x = cb.timestamp := by
            have : ((bs ++ [cb]).map Bar.timestamp).getLast? =
                some cb.timestamp := by
              rw [List.map_append]
              simp
            rw [this] at hx
            exact (Option.mem_some_iff.mp hx).symm
          rw [hx', hts, ← hy, hnts]
          exact hlt
        · intro z
          constructor
          · intro hz
            rw [List.map_append] at hz
            rcases List.mem_append.mp hz with hz | hz
            · obtain ⟨u, hu, hku⟩ := (hmem z).mp hz
              exact ⟨u, List.mem_append.mpr (Or.inl hu), hku⟩
            · simp only [List.map_cons, List.map_nil, List.mem_singleton] at hz
              rw [hnts] at hz
              injection hz with hz
              exact ⟨t, by simp, hz.symm⟩
          · rintro ⟨u, hu, hku⟩
            rw [List.map_append]
            rcases List.mem_append.mp hu with hu | hu
            · exact List.mem_append.mpr (Or.inl ((hmem z).mpr ⟨u, hu, hku⟩))
            · simp at hu
              subst hu
              refine List.mem_append.mpr (Or.inr ?_)
              simp only [List.map_cons, List.map_nil, List.mem_singleton]
              rw [hnts, hku]
        · intro b hb
          rcases List.mem_append.mp hb with hb | hb
          · exact htc b hb
          · simp at hb
            subst hb
            show 1 ≤ (addVolume (newBarFromTick (getBarTime t.timestamp m) t)
              t).tickCount
            simp [addVolume, newBarFromTick]

/-- In a duplicate-free list a present element is counted exactly
once. -/
theorem count_eq_one_of_nodup_mem {a : Option Int} {l : List (Option Int)}
    (hnd : l.Nodup) (h : a ∈ l) : l.count a = 1 := by
  induction l with
  | nil => simp at h
  | cons x xs ih =>
    have hnd' := List.nodup_cons.mp hnd
    rw [List.count_cons]
    rcases List.mem_cons.mp h with h | h
    · subst h
      rw [List.count_eq_zero_of_not_mem hnd'.1]
      simp
    · have hne : a ≠ x := fun he => hnd'.1 (he ▸ h)
      have hne' : ¬ x = a := fun he => hne he.symm
      rw [ih hnd'.2 h]
      simp [hne']

/-- Strictly ascending Date chains contain no duplicates. -/
theorem chain_optLt_nodup {ol : List (Option Int)}
    (h : List.Chain' optLt ol) : ol.Nodup := by
  have hp : List.Pairwise optLt ol := List.chain'_iff_pairwise.mp h
  refine hp.imp ?_
  intro a b hab
  cases a <;> cases b <;> simp [optLt] at hab ⊢
  omega

/-- For nonempty input and a parsed timeframe, `aggregateTicksToBars`
returns the closed fold state over the sorted copy. -/
theorem aggregateTicksToBars_ok {ticks : List Tick} {tf : String} {m : ℕ}
    (hp : parseTimeframe tf = Except.ok m) (hne : ticks ≠ []) :
    aggregateTicksToBars ticks tf =
      Except.ok (closeState (aggState m (sortTicks ticks))) := by
  unfold aggregateTicksToBars
  rw [if_neg (by simpa using hne), hp]
  rfl

/-- For nonempty input and a parsed timeframe, `resampleBars` returns
the closed fold state over the sorted copy. -/
theorem resampleBars_ok {bars : List Bar} {tf : String} {m : ℕ}
    (hp : parseTimeframe tf = Except.ok m) (hne : bars ≠ []) :
    resampleBars bars tf =
      Except.ok (closeStateR ((sortBars bars).foldl (barStep m) ([], none))) := by
  unfold resampleBars
  rw [if_neg (by simpa using hne), hp]

/-- A sorted copy of a nonempty list is nonempty. -/
theorem sortTicks_ne_nil {ticks : List Tick} (hne : ticks ≠ []) :
    sortTicks ticks ≠ [] := by
  intro h
  apply hne
  have := (sortTicks_perm ticks).length_eq
  rw [h] at this
  exact List.length_eq_zero.mp this.symm

/-- C1 counterexample.  The spec grammar accepts the token of count zero,
which parses to interval 0; JavaScript then computes NaN bucket starts
(Invalid Dates) and `NaN !== NaN` opens a fresh bar for every tick.  Two
ticks lying in the same degenerate bucket produce two bars whose
bucket-start timestamps are equal (both invalid) and not strictly
ascending, refuting the claim for this valid-per-grammar timeframe. -/
theorem aggregate_zero_interval_duplicate_buckets :
    parseTimeframe ("0m") = Except.ok 0 ∧
    getBarTime 0 0 = getBarTime 60000 0 ∧
    (aggregateTicksToBars
        [{ timestamp := 0, bid := 1, ask := 1 },
         { timestamp := 60000, bid := 1, ask := 1 }] ("0m")).map
      (fun bars => bars.map Bar.timestamp) = Except.ok [none, none] ∧
    ¬ List.Chain' optLt [none, none] := by
  refine ⟨rfl, rfl, rfl, ?_⟩
  intro h
  rw [List.chain'_cons] at h
  exact h.1

/-- C1 (amended to positive intervals): for every timeframe token whose
parsed minute count is positive, aggregation succeeds and the output
bucket-start timestamps are strictly ascending (hence duplicate free),
and each bucket start occurs exactly once when some input tick falls in
that bucket and never otherwise. -/
theorem aggregate_buckets_strictly_ascending (ticks : List Tick)
    (tf : String) (m : ℕ) (hp : parseTimeframe tf = Except.ok m)
    (hm : 0 < m) :
    ∃ bars, aggregateTicksToBars ticks tf = Except.ok bars ∧
      List.Chain' optLt (bars.map Bar.timestamp) ∧
      ∀ z : Int, (bars.map Bar.timestamp).count (some z) =
        if ∃ t ∈ ticks, bucketKey m t.timestamp = z then 1 else 0 := by
  by_cases hticks : ticks = []
  · subst hticks
    refine ⟨[], rfl, by simp, ?_⟩
    intro z
    simp
  · have hsne := sortTicks_ne_nil hticks
    rcases hl : (sortTicks ticks).getLast? with _ | tl
    · exact absurd (List.getLast?_eq_none_iff.mp hl) hsne
    · obtain ⟨bs, cb, heq, hts, hchain, hmem, htc⟩ :=
        aggState_spec m hm (sortTicks ticks) (sortTicks_sorted ticks) tl hl
      refine ⟨bs ++ [cb], ?_, ?_, ?_⟩
      · rw [aggregateTicksToBars_ok hp hticks, heq]
        rfl
      · exact hchain
      · intro z
        have hnd : ((bs ++ [cb]).map Bar.timestamp).Nodup :=
          chain_optLt_nodup hchain
        have hmem' : some z ∈ (bs ++ [cb]).map Bar.timestamp ↔
            ∃ t ∈ ticks, bucketKey m t.timestamp = z := by
          rw [hmem z]
          constructor
          · rintro ⟨u, hu, hku⟩
            exact ⟨u, (sortTicks_perm ticks).mem_iff.mp hu, hku⟩
          · rintro ⟨u, hu, hku⟩
            exact ⟨u, (sortTicks_perm ticks).mem_iff.mpr hu, hku⟩
        by_cases hz : ∃ t ∈ ticks, bucketKey m t.timestamp = z
        · rw [if_pos hz]
          exact count_eq_one_of_nodup_mem hnd (hmem'.mpr hz)
        · rw [if_neg hz]
          exact List.count_eq_zero_of_not_mem fun hc => hz (hmem'.mp hc)

/-- C1 witness: the amended theorem applied to one concrete tick and the
timeframe of one minute. -/
theorem aggregate_buckets_strictly_ascending_witness :
    ∃ bars, aggregateTicksToBars [{ timestamp := 65000, bid := 1, ask := 2 }]
        ("1m") = Except.ok bars ∧
      List.Chain' optLt (bars.map Bar.timestamp) ∧
      ∀ z : Int, (bars.map Bar.timestamp).count (some z) =
        if ∃ t ∈ [{ timestamp := 65000, bid := 1, ask := 2 : Tick }],
            bucketKey 1 t.timestamp = z then 1 else 0 :=
  aggregate_buckets_strictly_ascending _ _ 1 rfl (by omega)

/-- C5 counterexample.  The grammar accepts the zero-count token, whose
interval is zero; there `getBarTime` yields an Invalid Date (NaN), and
the JavaScript comparison `bucketStart(t, tf) <= t` is false, refuting
the inequality for this valid-per-grammar timeframe. -/
theorem bucketStart_zero_interval_invalid :
    parseTimeframe ("0m") = Except.ok 0 ∧
    getBarTime 60000 0 = none ∧
    jsLe (getBarTime 60000 0) (some 60000) = false :=
  ⟨rfl, rfl, rfl⟩

/-- C5 (amended to positive intervals): for every timeframe token whose
parsed minute count is positive, `getBarTime` computes
`floor(ms / intervalMs) * intervalMs` as a valid instant, the bucket
start never exceeds the instant, and bucketing is idempotent. -/
theorem bucketStart_floor_le_idempotent (tf : String) (m : ℕ) (t : Int)
    (hp : parseTimeframe tf = Except.ok m) (hm : 0 < m) :
    getBarTime t m = some (Int.fdiv t (intervalMs m) * intervalMs m) ∧
    (∀ z, getBarTime t m = some z → z ≤ t) ∧
    getBarTimeOpt (getBarTime t m) m = getBarTime t m := by
  refine ⟨getBarTime_pos hm t, ?_, ?_⟩
  · intro z hz
    rw [getBarTime_pos hm] at hz
    injection hz with hz
    rw [← hz]
    exact bucketKey_le hm t
  · rw [getBarTime_pos hm]
    show getBarTime (bucketKey m t) m = some (bucketKey m t)
    rw [getBarTime_pos hm, bucketKey_idem hm]

/-- C5 witness: the amended theorem at the five-minute timeframe and a
concrete instant. -/
theorem bucketStart_floor_le_idempotent_witness :
    getBarTime 777777 5 = some (Int.fdiv 777777 (intervalMs 5) * intervalMs 5) ∧
    (∀ z, getBarTime 777777 5 = some z → z ≤ 777777) ∧
    getBarTimeOpt (getBarTime 777777 5) 5 = getBarTime 777777 5 :=
  bucketStart_floor_le_idempotent ("5m") 5 777777 rfl (by omega)

/-- C10: on the empty input sequence both `aggregateTicksToBars` and
`resampleBars` return the empty sequence for every timeframe token,
including tokens the grammar rejects: the emptiness check precedes
timeframe parsing, so no invalid-timeframe error can be raised. -/
theorem empty_input_yields_empty (tf : String) :
    aggregateTicksToBars [] tf = Except.ok [] ∧
    resampleBars [] tf = Except.ok [] :=
  ⟨rfl, rfl⟩

/-- C2: inside `aggregateTicksToBars`, a bar opened from a tick is seeded
with `spread = ask - bid` and `tickCount = 1`; a tick falling in the open
bucket of the current bar increments the tick count first and then
updates the spread with exactly the recurrence
`spread = (spread * (n - 1) + (ask - bid)) / n` for the post-increment
count `n`.  The volume update that follows leaves both fields alone. -/
theorem spread_seed_and_incremental_mean (m : ℕ) (bs : List Bar) (cb : Bar)
    (t : Tick) (bt : Option Int)
    (hsame : dateNe cb.timestamp (getBarTime t.timestamp m) = false) :
    (addVolume (newBarFromTick bt t) t).spread = t.ask - t.bid ∧
    (addVolume (newBarFromTick bt t) t).tickCount = 1 ∧
    ∃ b', tickStep m (bs, some cb) t = (bs, some b') ∧
      b'.tickCount = cb.tickCount + 1 ∧
      b'.spread = (cb.spread * ((b'.tickCount : ℚ) - 1) + (t.ask - t.bid)) /
        (b'.tickCount : ℚ) := by
  refine ⟨rfl, rfl, addVolume (updateBarWithTick cb t) t, ?_, rfl, rfl⟩
  simp [tickStep, hsame]

/-- C2 witness: the recurrence at a concrete one-bar state and tick. -/
theorem spread_seed_and_incremental_mean_witness :
    (addVolume (newBarFromTick (some 0)
        { timestamp := 30000, bid := 1, ask := 2 })
      { timestamp := 30000, bid := 1, ask := 2 }).spread = 2 - 1 ∧
    (addVolume (newBarFromTick (some 0)
        { timestamp := 30000, bid := 1, ask := 2 })
      { timestamp := 30000, bid := 1, ask := 2 }).tickCount = 1 ∧
    ∃ b', tickStep 1
        ([], some { timestamp := some 0, open_ := 1, high := 1, low := 1,
                    close := 1, volume := 0, tickCount := 1, spread := 1 })
        { timestamp := 30000, bid := 1, ask := 2 } = ([], some b') ∧
      b'.tickCount = 1 + 1 ∧
      b'.spread = ((1 : ℚ) * ((b'.tickCount : ℚ) - 1) + ((2 : ℚ) - 1)) /
        (b'.tickCount : ℚ) :=
  spread_seed_and_incremental_mean 1 []
    { timestamp := some 0, open_ := 1, high := 1, low := 1, close := 1,
      volume := 0, tickCount := 1, spread := 1 }
    { timestamp := 30000, bid := 1, ask := 2 } (some 0) (by decide)

/-- C4 counterexample: `ticks.sort(...)` mutates the caller-supplied
array, so an unsorted input is reordered in place by the call, not left
unchanged. -/
theorem aggregate_mutates_input_order :
    aggregateTicksToBarsPost
        [{ timestamp := 60000, bid := 1, ask := 1 },
         { timestamp := 0, bid := 2, ask := 2 }] ("1m") ≠
      [{ timestamp := 60000, bid := 1, ask := 1 },
       { timestamp := 0, bid := 2, ask := 2 }] := by
  decide

/-- C4 (amended): on nonempty input with a parseable timeframe both
engines sort the caller-supplied array in place: after the call it is a
permutation of the original elements in ascending timestamp order, equal
to the sorted copy used for bucketing. -/
theorem aggregate_sorts_input_in_place (ticks : List Tick) (bars : List Bar)
    (tf : String) (m : ℕ) (hp : parseTimeframe tf = Except.ok m)
    (hticks : ticks ≠ []) (hbars : bars ≠ []) :
    (aggregateTicksToBarsPost ticks tf).Perm ticks ∧
    aggregateTicksToBarsPost ticks tf = sortTicks ticks ∧
    List.Sorted tickLe (aggregateTicksToBarsPost ticks tf) ∧
    (resampleBarsPost bars tf).Perm bars ∧
    resampleBarsPost bars tf = sortBars bars ∧
    List.Sorted barLe (resampleBarsPost bars tf) := by
  have h1 : aggregateTicksToBarsPost ticks tf = sortTicks ticks := by
    unfold aggregateTicksToBarsPost
    rw [if_neg (by simpa using hticks), hp]
  have h2 : resampleBarsPost bars tf = sortBars bars := by
    unfold resampleBarsPost
    rw [if_neg (by simpa using hbars)]
  refine ⟨?_, h1, ?_, ?_, h2, ?_⟩
  · rw [h1]
    exact sortTicks_perm ticks
  · rw [h1]
    exact sortTicks_sorted ticks
  · rw [h2]
    exact sortBars_perm bars
  · rw [h2]
    exact sortBars_sorted bars

/-- C4 witness: the amended theorem at a concrete unsorted array. -/
theorem aggregate_sorts_input_in_place_witness :
    (aggregateTicksToBarsPost [{ timestamp := 60000, bid := 1, ask := 1 },
        { timestamp := 0, bid := 2, ask := 2 }] ("1m")).Perm
      [{ timestamp := 60000, bid := 1, ask := 1 },
       { timestamp := 0, bid := 2, ask := 2 }] ∧
    aggregateTicksToBarsPost [{ timestamp := 60000, bid := 1, ask := 1 },
        { timestamp := 0, bid := 2, ask := 2 }] ("1m") =
      sortTicks [{ timestamp := 60000, bid := 1, ask := 1 },
        { timestamp := 0, bid := 2, ask := 2 }] ∧
    List.Sorted tickLe (aggregateTicksToBarsPost
      [{ timestamp := 60000, bid := 1, ask := 1 },
       { timestamp := 0, bid := 2, ask := 2 }] ("1m")) ∧
    (resampleBarsPost [{ timestamp := some 0, open_ := 1, high := 1,
                         low := 1, close := 1, volume := 0, tickCount := 1,
                         spread := 0 }]
      ("1m")).Perm
      [{ timestamp := some 0, open_ := 1, high := 1, low := 1, close := 1,
         volume := 0, tickCount := 1, spread := 0 }] ∧
    resampleBarsPost [{ timestamp := some 0, open_ := 1, high := 1,
                        low := 1, close := 1, volume := 0, tickCount := 1,
                        spread := 0 }]
      ("1m") =
      sortBars [{ timestamp := some 0, open_ := 1, high := 1, low := 1,
                  close := 1, volume := 0, tickCount := 1, spread := 0 }] ∧
    List.Sorted barLe (resampleBarsPost
      [{ timestamp := some 0, open_ := 1, high := 1, low := 1, close := 1,
         volume := 0, tickCount := 1, spread := 0 }] ("1m")) :=
  aggregate_sorts_input_in_place _ _ ("1m") 1 rfl (by decide) (by decide)

/-- C7 counterexample: a tick that carries both volume fields, one of
them zero, contributes nothing, because the source guards the update
with the truthiness test `tick.bidVolume && tick.askVolume` and 0 is
falsy; the claim predicts a contribution of `(0 + 5) / 2 = 2.5`. -/
theorem volume_truthiness_zero_dropped :
    ∃ b, aggregateTicksToBars
        [{ timestamp := 0, bid := 1, ask := 2, bidVolume := some 0,
           askVolume := some 5 }] ("1m") = Except.ok [b] ∧
      b.volume = 0 ∧ (0 : ℚ) ≠ ((0 : ℚ) + 5) / 2 := by
  refine ⟨_, rfl, ?_, by norm_num⟩
  show (addVolume (newBarFromTick (getBarTime 0 (digitsToNat
    (Char.ofNat 49 :: (splitDigits [Char.ofNat 109]).1) * 1))
      { timestamp := 0, bid := 1, ask := 2, bidVolume := some 0,
        askVolume := some 5 })
    { timestamp := 0, bid := 1, ask := 2, bidVolume := some 0,
      askVolume := some 5 }).volume = 0
  simp [addVolume, newBarFromTick, tickVolumeContrib, truthy]

/-- C7 (amended): a tick adds `(bidVolume + askVolume) / 2` to the open
bar exactly when both volume fields are present and truthy (nonzero); a
tick with either field absent or equal to zero adds exactly zero. -/
theorem volume_contribution_truthy (b : Bar) (t u : Tick) (bv av : ℚ)
    (hb : t.bidVolume = some bv) (ha : t.askVolume = some av)
    (hbv : bv ≠ 0) (hav : av ≠ 0)
    (hu : truthy u.bidVolume = false ∨ truthy u.askVolume = false) :
    (addVolume b t).volume = b.volume + (bv + av) / 2 ∧
    (addVolume b u).volume = b.volume := by
  constructor
  · simp [addVolume, tickVolumeContrib, truthy, hb, ha, hbv, hav]
  · rcases hu with hu | hu <;>
      simp [addVolume, tickVolumeContrib, hu]

/-- C7 witness: the amended theorem at a concrete bar, a truthy-volume
tick and a zero-bid-volume tick. -/
theorem volume_contribution_truthy_witness :
    (addVolume { timestamp := some 0, open_ := 1, high := 1, low := 1,
                 close := 1, volume := 7, tickCount := 1, spread := 0 }
      { timestamp := 0, bid := 1, ask := 2, bidVolume := some 3,
        askVolume := some 5 }).volume = 7 + ((3 : ℚ) + 5) / 2 ∧
    (addVolume { timestamp := some 0, open_ := 1, high := 1, low := 1,
                 close := 1, volume := 7, tickCount := 1, spread := 0 }
      { timestamp := 0, bid := 1, ask := 2, bidVolume := some 0,
        askVolume := some 5 }).volume = 7 :=
  volume_contribution_truthy _ _ _ 3 5 rfl rfl (by norm_num) (by norm_num)
    (Or.inl (by decide))

/-- A bar seeded from a tick satisfies the OHLC containment invariant:
all four prices coincide. -/
theorem barInv_new (bt : Option Int) (t : Tick) :
    barInv (newBarFromTick bt t) := by
  unfold barInv newBarFromTick
  simp

/-- The volume update does not touch the OHLC fields. -/
theorem barInv_addVolume {b : Bar} (t : Tick) (h : barInv b) :
    barInv (addVolume b t) := h

/-- The in-bucket tick update preserves the OHLC containment
invariant. -/
theorem barInv_update {b : Bar} (t : Tick) (h : barInv b) :
    barInv (updateBarWithTick b t) := by
  obtain ⟨h1, h2⟩ := h
  constructor
  · show min b.low (midPrice t) ≤ min b.open_ (midPrice t)
    exact le_min
      (le_trans (min_le_left _ _) (le_trans h1 (min_le_left _ _)))
      (min_le_right _ _)
  · show max b.open_ (midPrice t) ≤ max b.high (midPrice t)
    exact max_le
      (le_trans (le_trans (le_max_left _ _) h2) (le_max_left _ _))
      (le_max_right _ _)

/-- A resampled bar seeded from an invariant-satisfying source bar
satisfies the invariant: the OHLC fields are copied. -/
theorem rbarInv_new (bt : Option Int) {b : Bar} (h : barInv b) :
    rbarInv (newRBarFromBar bt b) := h

/-- The in-bucket bar merge preserves the invariant when the incoming
source bar satisfies it. -/
theorem rbarInv_update {cb : RBar} {b : Bar} (hcb : rbarInv cb)
    (hb : barInv b) : rbarInv (updateRBarWithBar cb b) := by
  obtain ⟨h1, h2⟩ := hcb
  obtain ⟨g1, g2⟩ := hb
  constructor
  · show min cb.low b.low ≤ min cb.open_ b.close
    exact le_min
      (le_trans (min_le_left _ _) (le_trans h1 (min_le_left _ _)))
      (le_trans (min_le_right _ _) (le_trans g1 (min_le_right _ _)))
  · show max cb.open_ b.close ≤ max cb.high b.high
    exact max_le
      (le_trans (le_trans (le_max_left _ _) h2) (le_max_left _ _))
      (le_trans (le_trans (le_max_right _ _) g2) (le_max_right _ _))

/-- Every state reached by folding ticks from an invariant-satisfying
state satisfies the bar invariant, for the closed and the open bars. -/
theorem barInv_foldl (m : ℕ) (l : List Tick) :
    ∀ st : List Bar × Option Bar, (∀ b ∈ st.1, barInv b) →
    (∀ b ∈ st.2.toList, barInv b) →
    (∀ b ∈ (l.foldl (tickStep m) st).1, barInv b) ∧
    (∀ b ∈ (l.foldl (tickStep m) st).2.toList, barInv b) := by
  induction l with
  | nil => exact fun st h1 h2 => ⟨h1, h2⟩
  | cons t ts ih =>
    intro st h1 h2
    rw [List.foldl_cons]
    rcases st with ⟨bs, _ | cb⟩
    · exact ih _ h1 fun b hb => by
        simp [tickStep] at hb
        subst hb
        exact barInv_addVolume t (barInv_new _ t)
    · have hcb : barInv cb := h2 cb (by simp)
      by_cases hd : dateNe cb.timestamp (getBarTime t.timestamp m) = true
      · refine ih _ ?_ ?_
        · intro b hb
          simp [tickStep, hd] at hb
          rcases hb with hb | hb
          · exact h1 b (by simpa using hb)
          · subst hb
            exact hcb
        · intro b hb
          simp [tickStep, hd] at hb
          subst hb
          exact barInv_addVolume t (barInv_new _ t)
      · rw [Bool.not_eq_true] at hd
        refine ih _ ?_ ?_
        · intro b hb
          simp [tickStep, hd] at hb
          exact h1 b (by simpa using hb)
        · intro b hb
          simp [tickStep, hd] at hb
          subst hb
          exact barInv_addVolume t (barInv_update t hcb)

/-- Every state reached by folding invariant-satisfying bars from an
invariant-satisfying state satisfies the resampled-bar invariant. -/
theorem rbarInv_foldl (m : ℕ) (l : List Bar) :
    ∀ st : List RBar × Option RBar, (∀ b ∈ l, barInv b) →
    (∀ r ∈ st.1, rbarInv r) → (∀ r ∈ st.2.toList, rbarInv r) →
    (∀ r ∈ (l.foldl (barStep m) st).1, rbarInv r) ∧
    (∀ r ∈ (l.foldl (barStep m) st).2.toList, rbarInv r) := by
  induction l with
  | nil => exact fun st _ h1 h2 => ⟨h1, h2⟩
  | cons b bs ih =>
    intro st hl h1 h2
    have hb : barInv b := hl b (by simp)
    have hl' : ∀ x ∈ bs, barInv x := fun x hx => hl x (by simp [hx])
    rw [List.foldl_cons]
    rcases st with ⟨rs, _ | cr⟩
    · exact ih _ hl' h1 fun r hr => by
        simp [barStep] at hr
        subst hr
        exact rbarInv_new _ hb
    · have hcr : rbarInv cr := h2 cr (by simp)
      by_cases hd : dateNe cr.timestamp (getBarTimeOpt b.timestamp m) = true
      · refine ih _ hl' ?_ ?_
        · intro r hr
          simp [barStep, hd] at hr
          rcases hr with hr | hr
          · exact h1 r (by simpa using hr)
          · subst hr
            exact hcr
        · intro r hr
          simp [barStep, hd] at hr
          subst hr
          exact rbarInv_new _ hb
      · rw [Bool.not_eq_true] at hd
        refine ih _ hl' ?_ ?_
        · intro r hr
          simp [barStep, hd] at hr
          exact h1 r (by simpa using hr)
        · intro r hr
          simp [barStep, hd] at hr
          subst hr
          exact rbarInv_update hcr hb

/-- C9: during construction, after every loop iteration, every closed
and open aggregate satisfies `low <= min(open, close)` and
`high >= max(open, close)`; consequently every bar returned by
`aggregateTicksToBars` satisfies it, and every bar returned by
`resampleBars` satisfies it, given that the caller-supplied source bars
do (resampled bars copy the OHLC fields of their first source bar). -/
theorem ohlc_bounds_invariant (m n : ℕ) (ticks : List Tick)
    (bars : List Bar) (tfa tfr : String)
    (hbars : ∀ b ∈ bars, barInv b) :
    (∀ b ∈ closeState (((sortTicks ticks).take n).foldl (tickStep m)
        ([], none)), barInv b) ∧
    (∀ out, aggregateTicksToBars ticks tfa = Except.ok out →
      ∀ b ∈ out, barInv b) ∧
    (∀ out, resampleBars bars tfr = Except.ok out →
      ∀ r ∈ out, rbarInv r) := by
  refine ⟨?_, ?_, ?_⟩
  · intro b hb
    have h := barInv_foldl m ((sortTicks ticks).take n) ([], none)
      (by simp) (by simp)
    rcases List.mem_append.mp hb with hb | hb
    · exact h.1 b hb
    · exact h.2 b hb
  · intro out hout
    by_cases he : ticks.isEmpty
    · unfold aggregateTicksToBars at hout
      rw [if_pos he] at hout
      injection hout with hout
      subst hout
      intro b hb
      simp at hb
    · rcases hpt : parseTimeframe tfa with e | m'
      · unfold aggregateTicksToBars at hout
        rw [if_neg he, hpt] at hout
        cases hout
      · rw [aggregateTicksToBars_ok hpt (by simpa using he)] at hout
        injection hout with hout
        subst hout
        intro b hb
        have h := barInv_foldl m' (sortTicks ticks) ([], none)
          (by simp) (by simp)
        rcases List.mem_append.mp hb with hb | hb
        · exact h.1 b hb
        · exact h.2 b hb
  · intro out hout
    by_cases he : bars.isEmpty
    · unfold resampleBars at hout
      rw [if_pos he] at hout
      injection hout with hout
      subst hout
      intro r hr
      simp at hr
    · rcases hpt : parseTimeframe tfr with e | m'
      · unfold resampleBars at hout
        rw [if_neg he, hpt] at hout
        cases hout
      · rw [resampleBars_ok hpt (by simpa using he)] at hout
        injection hout with hout
        subst hout
        intro r hr
        have hsb : ∀ b ∈ sortBars bars, barInv b := fun b hb =>
          hbars b ((sortBars_perm bars).mem_iff.mp hb)
        have h := rbarInv_foldl m' (sortBars bars) ([], none) hsb
          (by simp) (by simp)
        rcases List.mem_append.mp hr with hr | hr
        · exact h.1 r hr
        · exact h.2 r hr

/-- C9 witness: the invariant theorem at a concrete tick, bar and
timeframe. -/
theorem ohlc_bounds_invariant_witness :
    (∀ b ∈ closeState (((sortTicks
        [{ timestamp := 0, bid := 1, ask := 2 }]).take 1).foldl
          (tickStep 1) ([], none)), barInv b) ∧
    (∀ out, aggregateTicksToBars [{ timestamp := 0, bid := 1, ask := 2 }]
        ("1m") = Except.ok out → ∀ b ∈ out, barInv b) ∧
    (∀ out, resampleBars [{ timestamp := some 0, open_ := 1, high := 3,
                            low := 0, close := 2, volume := 0,
                            tickCount := 1, spread := 0 }]
        ("1m") = Except.ok out → ∀ r ∈ out, rbarInv r) :=
  ohlc_bounds_invariant 1 1 _ _ ("1m") ("1m") (by
    intro b hb
    simp at hb
    subst hb
    constructor <;> norm_num [barInv])

/-- `splitDigits` on a digit string followed by a non-digit splits at
exactly that boundary. -/
theorem splitDigits_all_digits (ds : List Char)
    (hds : ∀ c ∈ ds, c.isDigit = true) (u : Char) (hu : u.isDigit = false) :
    splitDigits (ds ++ [u]) = (ds, [u]) := by
  induction ds with
  | nil => simp [splitDigits, hu]
  | cons c cs ih =>
    have hc : c.isDigit = true := hds c (by simp)
    have hcs : splitDigits (cs ++ [u]) = (cs, [u]) :=
      ih fun x hx => hds x (by simp [hx])
    simp [splitDigits, hc, hcs]

/-- `splitDigits` decomposes its input, its first component is all
digits, and its second component starts with a non-digit if at all. -/
theorem splitDigits_spec (cs : List Char) :
    (splitDigits cs).1 ++ (splitDigits cs).2 = cs ∧
    (∀ c ∈ (splitDigits cs).1, c.isDigit = true) ∧
    (∀ c ∈ (splitDigits cs).2.head?, c.isDigit = false) := by
  induction cs with
  | nil => simp [splitDigits]
  | cons c cs ih =>
    by_cases hc : c.isDigit
    · obtain ⟨h1, h2, h3⟩ := ih
      refine ⟨?_, ?_, ?_⟩
      · simp only [splitDigits, hc, if_pos]
        simpa using h1
      · intro x hx
        simp only [splitDigits, hc, if_pos] at hx
        rcases List.mem_cons.mp hx with hx | hx
        · subst hx
          exact hc
        · exact h2 x hx
      · intro x hx
        simp only [splitDigits, hc, if_pos] at hx
        exact h3 x hx
    · refine ⟨?_, ?_, ?_⟩
      · simp [splitDigits, hc]
      · intro x hx
        simp [splitDigits, hc] at hx
      · intro x hx
        simp [splitDigits, hc] at hx
        subst hx
        simpa using hc

/-- Only the three unit letters are accepted by the unit switch. -/
theorem unitMinutes_some {u : Char} {k : ℕ} (h : unitMinutes u = some k) :
    u = Char.ofNat 109 ∨ u = Char.ofNat 104 ∨ u = Char.ofNat 100 := by
  by_contra hc
  push_neg at hc
  obtain ⟨h1, h2, h3⟩ := hc
  unfold unitMinutes at h
  split at h <;> simp_all

/-- A token succeeds in `parseTimeframe` exactly when it matches the
grammar. -/
theorem parseTimeframe_ok_iff (s : String) :
    (∃ k, parseTimeframe s = Except.ok k) ↔ matchesTimeframeGrammar s := by
  constructor
  · rintro ⟨k, hk⟩
    obtain ⟨happ, hdig, _⟩ := splitDigits_spec s.data
    unfold parseTimeframe at hk
    rcases hp2 : (splitDigits s.data).2 with _ | ⟨u, rest⟩
    · rw [hp2] at hk
      cases hk
    · rcases rest with _ | ⟨v, rest'⟩
      · rcases hp1 : (splitDigits s.data).1 with _ | ⟨d, ds'⟩
        · rw [hp2, hp1] at hk
          cases hk
        · rw [hp2, hp1] at hk
          have hk' : (match unitMinutes u with
            | some k' => Except.ok (digitsToNat (d :: ds') * k')
            | none => Except.error ("Invalid timeframe: " ++ s)) =
              Except.ok k := hk
          rcases hu : unitMinutes u with _ | k'
          · rw [hu] at hk'
            cases hk'
          · refine ⟨d :: ds', u, ?_, by simp, ?_, unitMinutes_some hu⟩
            · rw [← happ, hp1, hp2]
            · intro c hcmem
              apply hdig
              rw [hp1]
              exact hcmem
      · rw [hp2] at hk
        cases hk
  · rintro ⟨ds, u, hdata, hne, hdig, hu⟩
    have husd : u.isDigit = false := by
      rcases hu with h | h | h <;> subst h <;> decide
    have hsplit : splitDigits s.data = (ds, [u]) := by
      rw [hdata]
      exact splitDigits_all_digits ds hdig u husd
    unfold parseTimeframe
    rw [hsplit]
    rcases ds with _ | ⟨d, ds'⟩
    · exact absurd rfl hne
    · rcases hu with h | h | h <;> subst h <;>
        exact ⟨_, rfl⟩

/-- C8: `parseTimeframe` fails exactly on the tokens outside the grammar
`^(\d+)([mhd])$`, and on a matching token returns the count times 1, 60
or 1440 according to the unit. -/
theorem parseTimeframe_grammar (s : String) :
    ((∃ e, parseTimeframe s = Except.error e) ↔
      ¬ matchesTimeframeGrammar s) ∧
    (∀ ds u, s.data = ds ++ [u] → ds ≠ [] →
      (∀ c ∈ ds, c.isDigit = true) →
      ((u = Char.ofNat 109 →
          parseTimeframe s = Except.ok (digitsToNat ds)) ∧
       (u = Char.ofNat 104 →
          parseTimeframe s = Except.ok (digitsToNat ds * 60)) ∧
       (u = Char.ofNat 100 →
          parseTimeframe s = Except.ok (digitsToNat ds * 1440)))) := by
  constructor
  · rw [← parseTimeframe_ok_iff]
    cases hp : parseTimeframe s with
    | error e =>
      simp [hp]
    | ok k =>
      simp [hp]
  · intro ds u hdata hne hdig
    have hok : ∀ hu : u.isDigit = false, parseTimeframe s =
        match unitMinutes u with
        | some k => Except.ok (digitsToNat ds * k)
        | none => Except.error ("Invalid timeframe: " ++ s) := by
      intro hu
      have hsplit : splitDigits s.data = (ds, [u]) := by
        rw [hdata]
        exact splitDigits_all_digits ds hdig u hu
      unfold parseTimeframe
      rw [hsplit]
      rcases ds with _ | ⟨d, ds'⟩
      · exact absurd rfl hne
      · rfl
    refine ⟨?_, ?_, ?_⟩
    · intro h
      subst h
      rw [hok (by decide)]
      simp [unitMinutes]
    · intro h
      subst h
      rw [hok (by decide)]
      rfl
    · intro h
      subst h
      rw [hok (by decide)]
      rfl

/-- C8 witness: the grammar theorem applied to a concrete matching
token. -/
theorem parseTimeframe_grammar_witness :
    parseTimeframe ("15m") = Except.ok (digitsToNat
      [Char.ofNat 49, Char.ofNat 53]) ∧
    parseTimeframe ("2h") = Except.ok (digitsToNat [Char.ofNat 50] * 60) ∧
    ¬ matchesTimeframeGrammar ("5x") := by
  refine ⟨?_, ?_, ?_⟩
  · exact ((parseTimeframe_grammar ("15m")).2
      [Char.ofNat 49, Char.ofNat 53] (Char.ofNat 109) rfl (by decide)
      (by decide)).1 rfl
  · exact ((parseTimeframe_grammar ("2h")).2
      [Char.ofNat 50] (Char.ofNat 104) rfl (by decide) (by decide)).2.1 rfl
  · exact ((parseTimeframe_grammar ("5x")).1).mp ⟨_, rfl⟩

theorem ratSqrt_zero : ratSqrt 0 = some 0 := by
  norm_num [ratSqrt]

theorem jsqrt_num_zero : jsqrt (JsNum.num 0) = some (JsNum.num 0) := by
  norm_num [jsqrt, ratSqrt_zero]

theorem skewness_pair_nan (q : ℚ) :
    calculateSkewness [JsNum.num q, JsNum.num q] = some JsNum.nan := by
  norm_num [calculateSkewness, calculateStdDev, jsum, List.foldl, jadd, jsub,
    jneg, jmul, jdiv, jpow, jsqrt, ratSqrt_zero]

theorem kurtosis_triple_nan (q : ℚ) :
    calculateKurtosis [JsNum.num q, JsNum.num q, JsNum.num q] =
      some JsNum.nan := by
  have h1 : (q + q + q) / 3 = q := by ring
  have h2 : (0 + q + q + q) / 3 = q := by ring
  norm_num [calculateKurtosis, calculateStdDev, jsum, List.foldl, jadd, jsub,
    jneg, jmul, jdiv, jpow, jsqrt, ratSqrt_zero, h1, h2]

theorem skewness_singleton_nan (r : JsNum) :
    calculateSkewness [r] = some JsNum.nan := by
  cases r with
  | num a =>
    norm_num [calculateSkewness, calculateStdDev, jsum, List.foldl, jadd,
      jsub, jneg, jmul, jdiv, jpow, jsqrt, ratSqrt_zero]
  | nan =>
    norm_num [calculateSkewness, calculateStdDev, jsum, List.foldl, jadd,
      jsub, jneg, jmul, jdiv, jpow, jsqrt]
  | inf =>
    norm_num [calculateSkewness, calculateStdDev, jsum, List.foldl, jadd,
      jsub, jneg, jmul, jdiv, jpow, jsqrt]
  | ninf =>
    norm_num [calculateSkewness, calculateStdDev, jsum, List.foldl, jadd,
      jsub, jneg, jmul, jdiv, jpow, jsqrt]

theorem kurtosis_singleton_nan (r : JsNum) :
    calculateKurtosis [r] = some JsNum.nan := by
  cases r with
  | num a =>
    norm_num [calculateKurtosis, calculateStdDev, jsum, List.foldl, jadd,
      jsub, jneg, jmul, jdiv, jpow, jsqrt, ratSqrt_zero]
  | nan =>
    norm_num [calculateKurtosis, calculateStdDev, jsum, List.foldl, jadd,
      jsub, jneg, jmul, jdiv, jpow, jsqrt]
  | inf =>
    norm_num [calculateKurtosis, calculateStdDev, jsum, List.foldl, jadd,
      jsub, jneg, jmul, jdiv, jpow, jsqrt]
  | ninf =>
    norm_num [calculateKurtosis, calculateStdDev, jsum, List.foldl, jadd,
      jsub, jneg, jmul, jdiv, jpow, jsqrt]

theorem stdDev_singleton_some (r : JsNum) :
    ∃ v, calculateStdDev [r] = some v := by
  cases r with
  | num a =>
    refine ⟨JsNum.num 0, ?_⟩
    norm_num [calculateStdDev, jsum, List.foldl, jadd, jsub, jneg, jmul,
      jdiv, jpow, jsqrt, ratSqrt_zero]
  | nan =>
    exact ⟨JsNum.nan, by norm_num [calculateStdDev, jsum, List.foldl, jadd,
      jsub, jneg, jmul, jdiv, jpow, jsqrt]⟩
  | inf =>
    exact ⟨JsNum.nan, by norm_num [calculateStdDev, jsum, List.foldl, jadd,
      jsub, jneg, jmul, jdiv, jpow, jsqrt]⟩
  | ninf =>
    exact ⟨JsNum.nan, by norm_num [calculateStdDev, jsum, List.foldl, jadd,
      jsub, jneg, jmul, jdiv, jpow, jsqrt]⟩

theorem natAbs_div_den (q : ℚ) : ((q.num.natAbs : ℚ) / (q.den : ℚ)) = |q| := by
  rw [Rat.abs_def, Rat.divInt_eq_div]
  push_cast [Int.cast_natAbs]
  ring

theorem ratSqrt_sq (q : ℚ) : ratSqrt (q * q) = some |q| := by
  unfold ratSqrt
  have htn : (q * q).num.toNat = q.num.natAbs * q.num.natAbs := by
    rw [Rat.mul_self_num, ← Int.natAbs_mul_self, Int.toNat_natCast]
  have hdn : (q * q).den = q.den * q.den := Rat.mul_self_den q
  rw [htn, hdn, Nat.sqrt_eq, Nat.sqrt_eq]
  rw [if_pos ⟨rfl, rfl⟩]
  rw [natAbs_div_den]

theorem jsqrt_sq (q : ℚ) : jsqrt (JsNum.num (q * q)) = some (JsNum.num |q|) := by
  simp only [jsqrt]
  rw [if_neg (not_lt.mpr (mul_self_nonneg q)), ratSqrt_sq]
  rfl

theorem stdDev_pair_some (a b : ℚ) :
    ∃ v, calculateStdDev [JsNum.num a, JsNum.num b] = some v := by
  refine ⟨JsNum.num |(a - b) / 2|, ?_⟩
  have hv : ((a + -((a + b) / 2)) ^ 2 + (b + -((a + b) / 2)) ^ 2) / 2 =
      ((a - b) / 2) * ((a - b) / 2) := by ring
  norm_num [calculateStdDev, jsum, List.foldl, jadd, jsub, jneg, jdiv, jpow]
  rw [hv]  -- hope the goal is jsqrt (num ...) = some ...
  exact jsqrt_sq _

theorem tickStats_pair (t1 t2 : Tick) :
    ∃ rep, calculateTickStatistics [t1, t2] = some (some rep) ∧
      rep.returns.skew = JsNum.nan ∧ rep.returns.kurtosis = JsNum.nan := by
  obtain ⟨v1, hv1⟩ := stdDev_pair_some (t1.ask - t1.bid) (t2.ask - t2.bid)
  obtain ⟨v2, hv2⟩ := stdDev_pair_some ((t1.bid + t1.ask) / 2)
    ((t2.bid + t2.ask) / 2)
  obtain ⟨v3, hv3⟩ := stdDev_singleton_some (jdiv
    (jsub (JsNum.num ((t2.bid + t2.ask) / 2))
      (JsNum.num ((t1.bid + t1.ask) / 2)))
    (JsNum.num ((t1.bid + t1.ask) / 2)))
  simp only [calculateTickStatistics, List.isEmpty_cons, List.map_cons,
    List.map_nil, returnsOf, List.head?_cons, List.getLast?_cons_cons,
    List.getLast?_singleton, Bool.false_eq_true, if_false, hv1, hv2, hv3,
    skewness_singleton_nan, kurtosis_singleton_nan]
  exact ⟨_, rfl, rfl, rfl⟩

/-- On the empty series the skewness evaluates to finite garbage: the
normalizing factor is `0 / ((-1)(-2)) = 0` and the empty sum is 0, so the
result is 0, although mean and standard deviation are NaN. -/
theorem skewness_empty : calculateSkewness [] = some (JsNum.num 0) := by
  norm_num [calculateSkewness, calculateStdDev, jsum, List.foldl, jadd, jsub,
    jneg, jmul, jdiv, jpow, jsqrt]

/-- On the empty series the kurtosis evaluates to finite garbage:
`0 - 3/6 - 3 = -7/2`. -/
theorem kurtosis_empty : calculateKurtosis [] = some (JsNum.num (-7/2)) := by
  norm_num [calculateKurtosis, calculateStdDev, jsum, List.foldl, jadd, jsub,
    jneg, jmul, jdiv, jpow, jsqrt]

/-- On the empty series the standard deviation is NaN (`0 / 0`). -/
theorem stdDev_empty : calculateStdDev [] = some JsNum.nan := by
  norm_num [calculateStdDev, jsum, List.foldl, jadd, jsub, jneg, jmul, jdiv,
    jpow, jsqrt]

/-- The standard deviation of a two-element series is exactly half the
absolute difference. -/
theorem stdDev_pair_eq (a b : ℚ) :
    calculateStdDev [JsNum.num a, JsNum.num b] =
      some (JsNum.num |(a - b) / 2|) := by
  have hv : ((a + -((a + b) / 2)) ^ 2 + (b + -((a + b) / 2)) ^ 2) / 2 =
      ((a - b) / 2) * ((a - b) / 2) := by ring
  norm_num [calculateStdDev, jsum, List.foldl, jadd, jsub, jneg, jdiv, jpow]
  rw [hv]
  exact jsqrt_sq _

/-- The skewness of every two-element series of finite values is NaN:
for distinct values the standardized cubes cancel exactly and the
infinite factor times zero is NaN; for equal values the standardized
deviations are themselves `0 / 0`. -/
theorem skewness_pair_nan' (a b : ℚ) :
    calculateSkewness [JsNum.num a, JsNum.num b] = some JsNum.nan := by
  by_cases hab : a = b
  · subst hab
    exact skewness_pair_nan a
  · have hd : (a - b) / 2 ≠ 0 := by
      intro h
      apply hab
      field_simp at h
      linarith
    have habs : ¬ |(a - b) / 2| = 0 := fun h => hd (abs_eq_zero.mp h)
    have h1 : a + -((a + b) / 2) = (a - b) / 2 := by ring
    have h2 : b + -((a + b) / 2) = -((a - b) / 2) := by ring
    simp only [calculateSkewness, stdDev_pair_eq]
    norm_num [jsum, List.foldl, jadd, jsub, jneg, jdiv, jpow, jmul, habs,
      h1, h2]
    intro h
    apply absurd ?_ h
    ring

/-- The kurtosis of every two-element series of finite values is NaN:
both the main term and the correction term are infinite and their
difference is NaN. -/
theorem kurtosis_pair_nan (a b : ℚ) :
    calculateKurtosis [JsNum.num a, JsNum.num b] = some JsNum.nan := by
  by_cases hab : a = b
  · subst hab
    have h1 : (a + a) / 2 = a := by ring
    have h2 : (0 + a + a) / 2 = a := by ring
    norm_num [calculateKurtosis, calculateStdDev, jsum, List.foldl, jadd,
      jsub, jneg, jmul, jdiv, jpow, jsqrt, ratSqrt_zero, h1, h2]
  · have hd : (a - b) / 2 ≠ 0 := by
      intro h
      apply hab
      field_simp at h
      linarith
    have habs : ¬ |(a - b) / 2| = 0 := fun h => hd (abs_eq_zero.mp h)
    have h1 : a + -((a + b) / 2) = (a - b) / 2 := by ring
    have h2 : b + -((a + b) / 2) = -((a - b) / 2) := by ring
    have habs4 : |(a - b) / 2| ^ 4 = ((a - b) / 2) ^ 4 := by
      rw [← abs_pow]
      exact abs_of_nonneg (by positivity)
    have h4 : ((a - b) / 2 / |(a - b) / 2|) ^ 4 = 1 := by
      rw [div_pow, habs4]
      exact div_self (pow_ne_zero 4 hd)
    have h4' : (-((a - b) / 2) / |(a - b) / 2|) ^ 4 = 1 := by
      calc (-((a - b) / 2) / |(a - b) / 2|) ^ 4
          = ((a - b) / 2 / |(a - b) / 2|) ^ 4 := by ring
        _ = 1 := h4
    simp only [calculateKurtosis, stdDev_pair_eq]
    norm_num [jsum, List.foldl, jadd, jsub, jneg, jdiv, jpow, jmul, habs,
      h1, h2, h4, h4']

/-- The returns series of a single price is empty. -/
theorem returnsOf_singleton (x : JsNum) : returnsOf [x] = [] := rfl

/-- The report of a single tick: the returns series is empty, so the
skew and kurtosis fields carry the finite garbage values 0 and -7/2
instead of an error. -/
theorem tickStats_single (t : Tick) :
    ∃ rep, calculateTickStatistics [t] = some (some rep) ∧
      rep.returns.skew = JsNum.num 0 ∧
      rep.returns.kurtosis = JsNum.num (-7/2) := by
  obtain ⟨v1, hv1⟩ := stdDev_singleton_some (JsNum.num (t.ask - t.bid))
  obtain ⟨v2, hv2⟩ := stdDev_singleton_some (JsNum.num ((t.bid + t.ask) / 2))
  simp only [calculateTickStatistics, List.isEmpty_cons, List.map_cons,
    List.map_nil, returnsOf_singleton, List.head?_cons,
    List.getLast?_singleton, Bool.false_eq_true, if_false, hv1, hv2,
    stdDev_empty, skewness_empty, kurtosis_empty]
  exact ⟨_, rfl, rfl, rfl⟩


/-- C3 counterexample: `calculateSkewness` on two values and
`calculateKurtosis` on three values return normally with the silent
non-finite value NaN (the factor divides by zero and the standardized
deviations are `0 / 0`); neither function contains a length guard or a
throw statement, and `calculateTickStatistics` on a two-tick input
returns a full report whose skew and kurtosis fields are NaN instead of
failing. -/
theorem skewness_kurtosis_silent_nan :
    calculateSkewness [JsNum.num 0, JsNum.num 0] = some JsNum.nan ∧
    calculateKurtosis [JsNum.num 0, JsNum.num 0, JsNum.num 0] =
      some JsNum.nan ∧
    ∃ rep, calculateTickStatistics
        [{ timestamp := 0, bid := 1, ask := 1 },
         { timestamp := 1000, bid := 1, ask := 1 }] = some (some rep) ∧
      rep.returns.skew = JsNum.nan ∧ rep.returns.kurtosis = JsNum.nan :=
  ⟨skewness_pair_nan 0, kurtosis_triple_nan 0, tickStats_pair _ _⟩

/-- C3 (amended): the moment statistics contain no sample-size guard and
no throw statement: they never fail with an insufficient-data error but
silently return garbage on short series.  On the empty series both
results are finite garbage, skewness 0 and excess kurtosis -7/2.  On
every singleton series both are NaN; on every two-element series of
finite values both are NaN; on every three-element equal-value series
the kurtosis is NaN.  Consequently the statistics report of a single
tick, whose returns series is empty, carries the finite garbage values
skew 0 and kurtosis -7/2 instead of an error, and the report of two
ticks carries NaN in both fields, silently. -/
theorem skewness_kurtosis_silent_garbage (a b q : ℚ) (r : JsNum)
    (t t1 t2 : Tick) :
    calculateSkewness [] = some (JsNum.num 0) ∧
    calculateKurtosis [] = some (JsNum.num (-7/2)) ∧
    calculateSkewness [r] = some JsNum.nan ∧
    calculateKurtosis [r] = some JsNum.nan ∧
    calculateSkewness [JsNum.num a, JsNum.num b] = some JsNum.nan ∧
    calculateKurtosis [JsNum.num a, JsNum.num b] = some JsNum.nan ∧
    calculateKurtosis [JsNum.num q, JsNum.num q, JsNum.num q] =
      some JsNum.nan ∧
    (∃ rep, calculateTickStatistics [t] = some (some rep) ∧
      rep.returns.skew = JsNum.num 0 ∧
      rep.returns.kurtosis = JsNum.num (-7/2)) ∧
    (∃ rep, calculateTickStatistics [t1, t2] = some (some rep) ∧
      rep.returns.skew = JsNum.nan ∧ rep.returns.kurtosis = JsNum.nan) :=
  ⟨skewness_empty, kurtosis_empty, skewness_singleton_nan r,
   kurtosis_singleton_nan r, skewness_pair_nan' a b, kurtosis_pair_nan a b,
   kurtosis_triple_nan q, tickStats_single t, tickStats_pair t1 t2⟩

/-- `v || 0` on a number that is always present is the identity. -/
theorem jsOrQ_zero (v : ℚ) : jsOrQ v 0 = v := by
  unfold jsOrQ
  split <;> simp_all

/-- `v || 1` on a positive count is the identity. -/
theorem jsOrNat_pos {v : ℕ} (h : 1 ≤ v) : jsOrNat v 1 = v := by
  unfold jsOrNat
  split <;> omega

/-- Absorption: feeding `resampleBars` the current source bar after one
more in-bucket tick update gives the same result as feeding it the bar
before the update and then applying the tick to the open resampled
aggregate.  This is the heart of the 5m-to-15m composition argument. -/
theorem barStep_tick_absorb (M : ℕ) (X : List RBar × Option RBar) (c : Bar)
    (t : Tick) (ys : List RBar) (yc : RBar) (hc : 1 ≤ c.tickCount)
    (h : barStep M X c = (ys, some yc)) :
    barStep M X (addVolume (updateBarWithTick c t) t) =
      (ys, some { yc with
        high := max yc.high (midPrice t)
        low := min yc.low (midPrice t)
        close := midPrice t
        volume := yc.volume + tickVolumeContrib t
        tickCount := yc.tickCount + 1 }) := by
  have hts : (addVolume (updateBarWithTick c t) t).timestamp = c.timestamp := rfl
  rcases X with ⟨xs, _ | xc⟩
  · simp only [barStep] at h ⊢
    injection h with h1 h2
    subst h1
    injection h2 with h2
    subst h2
    rw [hts]
    simp [newRBarFromBar, addVolume, updateBarWithTick, RBar.mk.injEq,
      jsOrQ_zero, jsOrNat_pos hc, jsOrNat_pos (by omega : 1 ≤ c.tickCount + 1)]
  · by_cases hd : dateNe xc.timestamp (getBarTimeOpt c.timestamp M) = true
    · simp only [barStep, hd, if_true] at h
      injection h with h1 h2
      subst h1
      injection h2 with h2
      subst h2
      simp only [barStep, hts, hd, if_true]
      simp [newRBarFromBar, addVolume, updateBarWithTick, RBar.mk.injEq,
        jsOrQ_zero, jsOrNat_pos hc, jsOrNat_pos (by omega : 1 ≤ c.tickCount + 1)]
    · rw [Bool.not_eq_true] at hd
      simp only [barStep, hd, Bool.false_eq_true, if_false] at h
      injection h with h1 h2
      subst h1
      injection h2 with h2
      subst h2
      simp only [barStep, hts, hd, Bool.false_eq_true, if_false]
      simp only [updateRBarWithBar, addVolume, updateBarWithTick,
        RBar.mk.injEq, jsOrQ_zero, jsOrNat_pos hc,
        jsOrNat_pos (by omega : 1 ≤ c.tickCount + 1)]
      simp [max_assoc, min_assoc, add_assoc, Nat.add_assoc]

/-- Simulation: over a sorted tick sequence, resampling the fine-grained
aggregation state into the coarse timeframe reproduces the directly
aggregated coarse state exactly, up to dropping the `spread` field, for
nested grids (fine minute count dividing the coarse one). -/
theorem resample_sim (m M : ℕ) (hm : 0 < m) (hM : 0 < M) (hd : m ∣ M) :
    ∀ l : List Tick, List.Sorted tickLe l → l ≠ [] →
    ∃ bs5 cb5 bsD cbD,
      aggState m l = (bs5, some cb5) ∧ aggState M l = (bsD, some cbD) ∧
      (bs5 ++ [cb5]).foldl (barStep M) ([], none) =
        (bsD.map projBar, some (projBar cbD)) := by
  intro l
  induction l using List.reverseRecOn with
  | nil =>
    intro _ h
    exact absurd rfl h
  | append_singleton l t ih =>
    intro hs _
    have hpair := List.pairwise_append.mp hs
    have hsl : List.Sorted tickLe l := hpair.1
    have hle : ∀ u ∈ l, tickLe u t := fun u hu => hpair.2.2 u hu t (by simp)
    rcases hl0 : l.getLast? with _ | tl
    · have hlnil : l = [] := List.getLast?_eq_none_iff.mp hl0
      subst hlnil
      refine ⟨[], addVolume (newBarFromTick (getBarTime t.timestamp m) t) t,
        [], addVolume (newBarFromTick (getBarTime t.timestamp M) t) t,
        ?_, ?_, ?_⟩
      · simp [aggState, tickStep]
      · simp [aggState, tickStep]
      · simp only [List.nil_append, List.foldl_cons, List.foldl_nil,
          List.map_nil, barStep]
        simp [newRBarFromBar, projBar, addVolume, newBarFromTick,
          getBarTimeOpt, getBarTime_pos hm, getBarTime_pos hM,
          bucketKey_compose hm hM hd, jsOrQ_zero, jsOrNat]
    · obtain ⟨bs5, cb5, bsD, cbD, h5, hD, hsim⟩ :=
        ih hsl (by rintro rfl; simp at hl0)
      obtain ⟨bs5', cb5', h5', hts5, _, _, htc5⟩ :=
        aggState_spec m hm l hsl tl hl0
      obtain ⟨bsD', cbD', hD', htsD, _, _, _⟩ :=
        aggState_spec M hM l hsl tl hl0
      rw [h5] at h5'
      injection h5' with e1 e2
      subst e1
      injection e2 with e2
      subst e2
      rw [hD] at hD'
      injection hD' with f1 f2
      subst f1
      injection f2 with f2
      subst f2
      have htlmem : tl ∈ l := List.mem_of_mem_getLast? (by simp [hl0])
      have hletl : tl.timestamp ≤ t.timestamp := hle tl htlmem
      have htccb5 : 1 ≤ cb5.tickCount :=
        htc5 cb5 (List.mem_append.mpr (Or.inr (by simp)))
      rw [aggState_append, aggState_append, h5, hD]
      by_cases hk5 : bucketKey m t.timestamp = bucketKey m tl.timestamp
      · have hkD : bucketKey M t.timestamp = bucketKey M tl.timestamp := by
          rw [← bucketKey_compose hm hM hd t.timestamp, hk5,
            bucketKey_compose hm hM hd]
        have hne5 : dateNe cb5.timestamp (getBarTime t.timestamp m) = false := by
          rw [hts5, getBarTime_pos hm]
          simp [dateNe]
          exact hk5.symm
        have hneD : dateNe cbD.timestamp (getBarTime t.timestamp M) = false := by
          rw [htsD, getBarTime_pos hM]
          simp [dateNe]
          exact hkD.symm
        refine ⟨bs5, addVolume (updateBarWithTick cb5 t) t, bsD,
          addVolume (updateBarWithTick cbD t) t, ?_, ?_, ?_⟩
        · simp [tickStep, hne5]
        · simp [tickStep, hneD]
        · have hfold5' : (bs5 ++ [cb5]).foldl (barStep M) ([], none) =
              barStep M (bs5.foldl (barStep M) ([], none)) cb5 := by
            rw [List.foldl_append]
            rfl
          have habs := barStep_tick_absorb M
            (bs5.foldl (barStep M) ([], none)) cb5 t (bsD.map projBar)
            (projBar cbD) htccb5 (by rw [← hfold5']; exact hsim)
          have hfold5 : (bs5 ++ [addVolume (updateBarWithTick cb5 t) t]).foldl
              (barStep M) ([], none) =
              barStep M (bs5.foldl (barStep M) ([], none))
                (addVolume (updateBarWithTick cb5 t) t) := by
            rw [List.foldl_append]
            rfl
          rw [hfold5, habs]
          rfl
      · have hlt5 : bucketKey m tl.timestamp < bucketKey m t.timestamp :=
          lt_of_le_of_ne (bucketKey_mono hm hletl) fun h => hk5 h.symm
        have hne5 : dateNe cb5.timestamp (getBarTime t.timestamp m) = true := by
          rw [hts5, getBarTime_pos hm]
          simp [dateNe]
          omega
        by_cases hkD : bucketKey M t.timestamp = bucketKey M tl.timestamp
        · have hneD : dateNe cbD.timestamp (getBarTime t.timestamp M) = false := by
            rw [htsD, getBarTime_pos hM]
            simp [dateNe]
            exact hkD.symm
          refine ⟨bs5 ++ [cb5],
            addVolume (newBarFromTick (getBarTime t.timestamp m) t) t, bsD,
            addVolume (updateBarWithTick cbD t) t, ?_, ?_, ?_⟩
          · simp [tickStep, hne5]
          · simp [tickStep, hneD]
          · rw [List.foldl_append, hsim]
            simp only [List.foldl_cons, List.foldl_nil]
            have hbt : getBarTimeOpt (addVolume (newBarFromTick
                (getBarTime t.timestamp m) t) t).timestamp M =
                some (bucketKey M t.timestamp) := by
              show getBarTimeOpt (getBarTime t.timestamp m) M = _
              rw [getBarTime_pos hm]
              show getBarTime (bucketKey m t.timestamp) M = _
              rw [getBarTime_pos hM, bucketKey_compose hm hM hd]
            have hneP : dateNe (projBar cbD).timestamp (getBarTimeOpt
                (addVolume (newBarFromTick (getBarTime t.timestamp m) t)
                  t).timestamp M) = false := by
              rw [hbt]
              show dateNe cbD.timestamp _ = false
              rw [htsD]
              simp [dateNe]
              exact hkD.symm
            simp only [barStep, hneP, Bool.false_eq_true, if_false]
            simp [updateRBarWithBar, projBar, addVolume, newBarFromTick,
              updateBarWithTick, jsOrQ_zero, jsOrNat, tickVolumeContrib]
        · have hltD : bucketKey M tl.timestamp < bucketKey M t.timestamp :=
            lt_of_le_of_ne (bucketKey_mono hM hletl) fun h => hkD h.symm
          have hneD : dateNe cbD.timestamp (getBarTime t.timestamp M) = true := by
            rw [htsD, getBarTime_pos hM]
            simp [dateNe]
            omega
          refine ⟨bs5 ++ [cb5],
            addVolume (newBarFromTick (getBarTime t.timestamp m) t) t,
            bsD ++ [cbD],
            addVolume (newBarFromTick (getBarTime t.timestamp M) t) t,
            ?_, ?_, ?_⟩
          · simp [tickStep, hne5]
          · simp [tickStep, hneD]
          · rw [List.foldl_append, hsim]
            simp only [List.foldl_cons, List.foldl_nil]
            have hbt : getBarTimeOpt (addVolume (newBarFromTick
                (getBarTime t.timestamp m) t) t).timestamp M =
                some (bucketKey M t.timestamp) := by
              show getBarTimeOpt (getBarTime t.timestamp m) M = _
              rw [getBarTime_pos hm]
              show getBarTime (bucketKey m t.timestamp) M = _
              rw [getBarTime_pos hM, bucketKey_compose hm hM hd]
            have hneP : dateNe (projBar cbD).timestamp (getBarTimeOpt
                (addVolume (newBarFromTick (getBarTime t.timestamp m) t)
                  t).timestamp M) = true := by
              rw [hbt]
              show dateNe cbD.timestamp _ = true
              rw [htsD]
              simp [dateNe]
              omega
            have hbt2 : getBarTimeOpt (getBarTime t.timestamp m) M =
                some (bucketKey M t.timestamp) := hbt
            simp only [barStep, hneP, if_true]
            rw [List.map_append]
            simp [newRBarFromBar, projBar, addVolume, newBarFromTick,
              hbt, hbt2, getBarTime_pos hM, jsOrQ_zero, jsOrNat,
              tickVolumeContrib]

/-- A strictly ascending timestamp chain is in particular sorted for the
bar comparator, so the engine re-sort leaves it unchanged. -/
theorem sorted_barLe_of_chain {bars : List Bar}
    (h : List.Chain' optLt (bars.map Bar.timestamp)) :
    List.Sorted barLe bars := by
  have hp : List.Pairwise optLt (bars.map Bar.timestamp) :=
    List.chain'_iff_pairwise.mp h
  rw [List.pairwise_map] at hp
  refine hp.imp ?_
  intro a b hab
  unfold barLe optTsLeB
  revert hab
  rcases a.timestamp with _ | x <;> rcases b.timestamp with _ | y <;>
    simp [optLt] <;> omega

/-- C6: aggregating ticks straight to 15m bars gives the same bars as
aggregating to 5m and then resampling 5m to 15m, for every field except
`spread`, which resampled bars do not carry: timestamp, open, high, low,
close, volume and tickCount all agree, bar for bar. -/
theorem aggregate_then_resample_eq_direct (ticks : List Tick) :
    (aggregateTicksToBars ticks ("5m")).bind
      (fun bars5 => resampleBars bars5 ("15m")) =
    (aggregateTicksToBars ticks ("15m")).map
      (fun bars => bars.map projBar) := by
  by_cases hne : ticks = []
  · subst hne
    rfl
  · have hp5 : parseTimeframe ("5m") = Except.ok 5 := rfl
    have hp15 : parseTimeframe ("15m") = Except.ok 15 := rfl
    have hsne := sortTicks_ne_nil hne
    obtain ⟨bs5, cb5, bsD, cbD, h5, hD, hsim⟩ :=
      resample_sim 5 15 (by omega) (by omega) (by omega) (sortTicks ticks)
        (sortTicks_sorted ticks) hsne
    rcases hl : (sortTicks ticks).getLast? with _ | tl
    · exact absurd (List.getLast?_eq_none_iff.mp hl) hsne
    · obtain ⟨bs5', cb5', h5', _, hchain5, _, _⟩ :=
        aggState_spec 5 (by omega) (sortTicks ticks)
          (sortTicks_sorted ticks) tl hl
      rw [h5] at h5'
      injection h5' with e1 e2
      subst e1
      injection e2 with e2
      subst e2
      rw [aggregateTicksToBars_ok hp5 hne, h5,
        aggregateTicksToBars_ok hp15 hne, hD]
      show resampleBars (closeState (bs5, some cb5)) ("15m") =
        Except.ok ((closeState (bsD, some cbD)).map projBar)
      have hcs : closeState (bs5, some cb5) = bs5 ++ [cb5] := rfl
      rw [hcs, resampleBars_ok hp15 (by simp),
        sortBars_eq_of_sorted (sorted_barLe_of_chain hchain5), hsim]
      congr 1
      simp [closeStateR, closeState]
